import Mathlib

/-!
Verification of the discovery-and-reconciliation engine of the
source-to-target mapping application.

Shallow embedding of:
  * `src/backend/mapping/models.py` (`SourceTable`, `SourceColumn` rows),
  * `src/backend/mapping/services/databricks_service.py`
    (`get_column_statistics`, `discover_columns`, `search_tables`),
  * `src/backend/mapping/services/discovery_service.py`
    (`sync_table`, `sync_table_columns`, `discover_schema_tables`,
    `discover_catalog_tables`, `discover_all_tables`,
    `search_and_sync_tables`).

Modelling conventions:
  * The relational store is a `Store` of row lists; Django's
    `get_or_create`/`save`/`update` become explicit list operations keyed by
    the same natural keys the code uses (`full_table_name`, and
    `(table, column_name)`).
  * Python exceptions are `Except String`; `@transaction.atomic` +
    re-raise in `sync_table` is modelled by the caller keeping the
    pre-call store whenever `sync_table` returns `.error` (rollback).
  * The external Databricks service and the per-column persistence layer
    are an oracle `Env`: remote listing calls return `Except` results and
    profiling probes are per-column `Except` outcomes.  Column-row saves
    may fail through `Env.columnSaveError` (the `PersistenceError` of the
    spec); table-row saves are assumed to succeed (no claim depends on
    them failing).
  * `timezone.now()` is an abstract clock value `Env.now`; Django's
    `auto_now` on `last_updated` is applied at every modelled save.
  * Timestamps are `Nat`, user identities are `Nat`, `avg_length`
    (a Python float) is `Rat`.
-/

deriving instance DecidableEq for Except

namespace DiscoveryCore

/-- Row of `mapping_source_tables` (`SourceTable` in `models.py`). -/
structure SourceTableRow where
  tid : Nat
  catalog_name : String
  schema_name : String
  table_name : String
  full_table_name : String
  table_type : String
  table_format : String
  location : String
  owner : String
  source_owners : Option String
  row_count : Int
  size_bytes : Int
  discovered_by : Nat
  discovered_at : Nat
  last_updated : Nat
  last_analyzed : Option Nat
  is_active : Bool
  analysis_status : String
deriving DecidableEq

/-- Row of `mapping_source_columns` (`SourceColumn` in `models.py`). -/
structure SourceColumnRow where
  cid : Nat
  table_id : Nat
  column_name : String
  column_position : Int
  data_type : String
  physical_data_type : Option String
  is_nullable : Bool
  is_primary_key : Bool
  is_foreign_key : Bool
  null_count : Int
  distinct_count : Int
  min_value : Option String
  max_value : Option String
  avg_length : Option Rat
  column_comment : Option String
  business_description : Option String
  sample_values : List String
  discovered_at : Nat
  last_updated : Nat
deriving DecidableEq

/-- The local relational store (tables and columns plus surrogate-id
counters standing for the database's autoincrement ids). -/
structure Store where
  tables : List SourceTableRow
  columns : List SourceColumnRow
  nextTableId : Nat
  nextColumnId : Nat
deriving DecidableEq

/-- Outcomes of the profiling probes `get_column_statistics` issues for one
column, plus the SQL-connection acquisition itself.  `.error` is a raised
exception. -/
structure ColumnProbes where
  connect : Except String Unit := .ok ()
  null_count : Except String Int := .ok 0
  distinct_count : Except String Int := .ok 0
  avg_length : Except String Rat := .ok 0
  min_max : Except String (Option String × Option String) := .ok (none, none)
  samples : Except String (List String) := .ok []
deriving DecidableEq

/-- The `stats` dict built by `get_column_statistics`: `none` means the key
is absent from the dict (the probe that would set it was never reached). -/
structure ColumnStats where
  null_count : Option Int := none
  distinct_count : Option Int := none
  avg_length : Option Rat := none
  min_value : Option (Option String) := none
  max_value : Option (Option String) := none
  sample_values : Option (List String) := none
deriving DecidableEq

/-- Substring test, standing for Python's `in` on strings. -/
def strContains (hay pat : String) : Bool :=
  decide (List.IsInfix pat.toList hay.toList)

/-- `'string' in column_type.lower() or 'varchar' in column_type.lower()`. -/
def isStringCol (column_type : String) : Bool :=
  strContains column_type.toLower "string" || strContains column_type.toLower "varchar"

/-- `any(t in column_type.lower() for t in ['int','bigint','decimal','double','float'])`. -/
def isNumericCol (column_type : String) : Bool :=
  ["int", "bigint", "decimal", "double", "float"].any
    (fun t => strContains column_type.toLower t)

/-- The `except` branch inside `get_column_statistics`:
`stats.update({'null_count': 0, 'distinct_count': 0, 'sample_values': []})` —
the three listed keys are overwritten with defaults, keys already set by
earlier probes are kept. -/
def statsOnFailure (s : ColumnStats) : ColumnStats :=
  { s with null_count := some 0, distinct_count := some 0, sample_values := some [] }

/-- Last probe of `get_column_statistics`: the 5 sample values. -/
def statsStageSamples (p : ColumnProbes) (s : ColumnStats) : ColumnStats :=
  match p.samples with
  | .error _ => statsOnFailure s
  | .ok vs => { s with sample_values := some vs }

/-- Min/max probe, issued only for numeric column types. -/
def statsStageMinMax (column_type : String) (p : ColumnProbes) (s : ColumnStats) :
    ColumnStats :=
  if isNumericCol column_type then
    match p.min_max with
    | .error _ => statsOnFailure s
    | .ok mm => statsStageSamples p { s with min_value := some mm.1, max_value := some mm.2 }
  else statsStageSamples p s

/-- Average-length probe, issued only for string column types. -/
def statsStageAvg (column_type : String) (p : ColumnProbes) (s : ColumnStats) :
    ColumnStats :=
  if isStringCol column_type then
    match p.avg_length with
    | .error _ => statsOnFailure s
    | .ok al => statsStageMinMax column_type p { s with avg_length := some al }
  else statsStageMinMax column_type p s

/-- `DatabricksService.get_column_statistics`: probes run sequentially in one
`try` block; the first failing probe jumps to the `except`, which resets
`null_count`/`distinct_count`/`sample_values` to defaults and keeps whatever
other keys were already set.  A connection failure yields the default-only
dict from the outer `except`. -/
def get_column_statistics (column_type : String) (p : ColumnProbes) : ColumnStats :=
  match p.connect with
  | .error _ => statsOnFailure {}
  | .ok _ =>
    match p.null_count with
    | .error _ => statsOnFailure {}
    | .ok nc =>
      match p.distinct_count with
      | .error _ => statsOnFailure { null_count := some nc }
      | .ok dc =>
        statsStageAvg column_type p { null_count := some nc, distinct_count := some dc }

/-- Column metadata as returned by the Unity-Catalog `tables.get` call
(`column.name`, `type_name`, `type_text`, `nullable`, `comment`). -/
structure RawColumn where
  name : String
  type_name : String
  type_text : Option String
  nullable : Bool
  comment : Option String
deriving DecidableEq

/-- The per-column dict built by `discover_columns`: the listed keys are
always present (`position` is the 1-based enumeration index), and the merged
statistics keys are carried in `stats`. -/
structure ColumnData where
  name : String
  position : Int
  type_name : String
  type_text : Option String
  nullable : Bool
  comment : Option String
  stats : ColumnStats
deriving DecidableEq

/-- `DatabricksService.discover_columns`: builds one dict per column with
`position = i + 1` and merges in `get_column_statistics`. -/
def discover_columns (probes : String → ColumnProbes) (raws : List RawColumn) :
    List ColumnData :=
  raws.enum.map (fun ic =>
    { name := ic.2.name
      position := (ic.1 : Int) + 1
      type_name := ic.2.type_name
      type_text := ic.2.type_text
      nullable := ic.2.nullable
      comment := ic.2.comment
      stats := get_column_statistics ic.2.type_name (probes ic.2.name) })

/-- The per-table dict built by `discover_tables` (and consumed by
`sync_table`).  Optional fields model the `.get(key, default)` accesses:
`none` stands for an absent key. -/
structure TableData where
  name : String
  catalog_name : String
  schema_name : String
  full_name : String
  table_type : Option String
  data_source_format : Option String
  storage_location : Option String
  owner : Option String
  comment : Option String
  row_count : Option Int
  size_bytes : Option Int
deriving DecidableEq

/-- Oracle for the external Databricks service and the per-column
persistence layer.  Listing calls are keyed by the names the code passes;
`rawColumnsOf` and `probesOf` are keyed by the fully-qualified table name
`catalog.schema.table` that `discover_columns` builds.  `columnSaveError fq
name = some e` means saving that column row raises `e`. -/
structure Env where
  now : Nat
  catalogs : Except String (List String)
  schemasOf : String → Except String (List String)
  tablesOf : String → String → Except String (List TableData)
  rawColumnsOf : String → Except String (List RawColumn)
  probesOf : String → String → ColumnProbes
  columnSaveError : String → String → Option String

/-- The `defaults` dict of the column `get_or_create` in
`sync_table_columns` (plus the model-level field defaults of
`SourceColumn`). -/
def newColumnRow (env : Env) (s : Store) (tid : Nat) (cd : ColumnData) :
    SourceColumnRow :=
  { cid := s.nextColumnId
    table_id := tid
    column_name := cd.name
    column_position := cd.position
    data_type := cd.type_name
    physical_data_type := cd.type_text
    is_nullable := cd.nullable
    is_primary_key := false
    is_foreign_key := false
    null_count := (cd.stats.null_count).getD 0
    distinct_count := (cd.stats.distinct_count).getD 0
    min_value := (cd.stats.min_value).getD none
    max_value := (cd.stats.max_value).getD none
    avg_length := cd.stats.avg_length
    column_comment := cd.comment
    business_description := none
    sample_values := (cd.stats.sample_values).getD []
    discovered_at := env.now
    last_updated := env.now }

/-- The update branch of the column loop in `sync_table_columns`: fields
overwritten from `column_data`, statistics via `.get(key, prior)`, and
`last_updated` stamped (the explicit assignment and Django's `auto_now`
coincide). -/
def updateColumnRow (env : Env) (cd : ColumnData) (c : SourceColumnRow) :
    SourceColumnRow :=
  { c with
    column_position := cd.position
    data_type := cd.type_name
    physical_data_type := cd.type_text
    is_nullable := cd.nullable
    null_count := (cd.stats.null_count).getD c.null_count
    distinct_count := (cd.stats.distinct_count).getD c.distinct_count
    min_value := (cd.stats.min_value).getD c.min_value
    max_value := (cd.stats.max_value).getD c.max_value
    avg_length := match cd.stats.avg_length with
      | some r => some r
      | none => c.avg_length
    column_comment := cd.comment
    sample_values := (cd.stats.sample_values).getD c.sample_values
    last_updated := env.now }

/-- The per-column loop of `sync_table_columns`: `get_or_create` keyed on
`(table, column_name)`, create with defaults or update in place; a failing
save raises, aborting the loop. -/
def syncColumnsLoop (env : Env) (fq : String) (tid : Nat)
    (cds : List ColumnData) (s : Store) (created updated : Nat) :
    Except String (Store × Nat × Nat) :=
  match cds with
  | [] => .ok (s, created, updated)
  | cd :: rest =>
    match env.columnSaveError fq cd.name with
    | some e => .error e
    | none =>
      match s.columns.find? (fun c => c.table_id == tid && c.column_name == cd.name) with
      | none =>
        syncColumnsLoop env fq tid rest
          { s with
            columns := s.columns ++ [newColumnRow env s tid cd]
            nextColumnId := s.nextColumnId + 1 }
          (created + 1) updated
      | some _ =>
        syncColumnsLoop env fq tid rest
          { s with
            columns := s.columns.map (fun c =>
              if c.table_id == tid && c.column_name == cd.name
              then updateColumnRow env cd c else c) }
          created (updated + 1)

/-- `DiscoveryService.sync_table_columns`: discover the columns of one
table, upsert each, then refresh `last_updated` on the vanished ones
(`existing - discovered`) without deleting them.  Any raised exception
propagates (`.error`). -/
def sync_table_columns (env : Env) (t : SourceTableRow) (s : Store) :
    Except String (Store × Nat × Nat) :=
  let fq := t.catalog_name ++ "." ++ t.schema_name ++ "." ++ t.table_name
  match env.rawColumnsOf fq with
  | .error e => .error e
  | .ok raws =>
    let cds := discover_columns (env.probesOf fq) raws
    let existing := (s.columns.filter (fun c => c.table_id == t.tid)).map
      (fun c => c.column_name)
    match syncColumnsLoop env fq t.tid cds s 0 0 with
    | .error e => .error e
    | .ok (s1, cr, up) =>
      let discovered := cds.map (fun cd => cd.name)
      .ok ({ s1 with
              columns := s1.columns.map (fun c =>
                if c.table_id == t.tid && existing.contains c.column_name
                    && !(discovered.contains c.column_name)
                then { c with last_updated := env.now } else c) },
            cr, up)

/-- The `defaults` dict of the table `get_or_create` in `sync_table` (plus
the model-level field defaults of `SourceTable`). -/
def newTableRow (env : Env) (userId : Nat) (s : Store) (td : TableData) :
    SourceTableRow :=
  { tid := s.nextTableId
    catalog_name := td.catalog_name
    schema_name := td.schema_name
    table_name := td.name
    full_table_name := td.full_name
    table_type := td.table_type.getD "TABLE"
    table_format := td.data_source_format.getD ""
    location := td.storage_location.getD ""
    owner := td.owner.getD ""
    source_owners := none
    row_count := td.row_count.getD 0
    size_bytes := td.size_bytes.getD 0
    discovered_by := userId
    discovered_at := env.now
    last_updated := env.now
    last_analyzed := none
    is_active := true
    analysis_status := "pending" }

/-- The `if not created` branch of `sync_table`: externally-sourced fields
re-applied via `.get(key, prior)`, `last_updated` stamped. -/
def updateTableRow (env : Env) (td : TableData) (t : SourceTableRow) :
    SourceTableRow :=
  { t with
    table_type := td.table_type.getD t.table_type
    table_format := td.data_source_format.getD t.table_format
    location := td.storage_location.getD t.location
    owner := td.owner.getD t.owner
    row_count := td.row_count.getD t.row_count
    size_bytes := td.size_bytes.getD t.size_bytes
    last_updated := env.now }

/-- The final save of `sync_table` on one row: `analysis_status =
'completed'`, `last_analyzed` stamped (and `auto_now` refreshes
`last_updated`). -/
def completeRow (env : Env) (t : SourceTableRow) : SourceTableRow :=
  { t with analysis_status := "completed",
           last_analyzed := some env.now,
           last_updated := env.now }

/-- The final save of `sync_table`, applied in the store. -/
def completeTable (env : Env) (fqn : String) (s : Store) : Store :=
  { s with
    tables := s.tables.map (fun t =>
      if t.full_table_name == fqn then completeRow env t else t) }

/-- Result dict of `sync_table`. -/
structure TableSyncStats where
  created : Bool
  columns_created : Nat
  columns_updated : Nat
deriving DecidableEq

/-- `DiscoveryService.sync_table` (`@transaction.atomic`): upsert the table
row by `full_table_name`, sync its columns, then mark it completed.  On any
raised exception the result is `.error` and the caller keeps its pre-call
store — the transaction rollback. -/
def sync_table (env : Env) (userId : Nat) (td : TableData) (s : Store) :
    Except String (Store × TableSyncStats) :=
  match s.tables.find? (fun t => t.full_table_name == td.full_name) with
  | none =>
    let row := newTableRow env userId s td
    let s1 : Store := { s with tables := s.tables ++ [row],
                               nextTableId := s.nextTableId + 1 }
    match sync_table_columns env row s1 with
    | .error e => .error e
    | .ok (s2, cr, up) =>
      .ok (completeTable env td.full_name s2,
           { created := true, columns_created := cr, columns_updated := up })
  | some t0 =>
    let t1 := updateTableRow env td t0
    let s1 : Store := { s with tables := s.tables.map (fun t =>
        if t.full_table_name == td.full_name then updateTableRow env td t else t) }
    match sync_table_columns env t1 s1 with
    | .error e => .error e
    | .ok (s2, cr, up) =>
      .ok (completeTable env td.full_name s2,
           { created := false, columns_created := cr, columns_updated := up })

/-- The counter dict of the sweep family (`discovery_stats`).  The code's
schema- and catalog-level dicts omit the higher-level keys; here the unused
counters simply stay `0`. -/
structure SweepStats where
  catalogs_processed : Nat := 0
  schemas_processed : Nat := 0
  tables_discovered : Nat := 0
  tables_created : Nat := 0
  tables_updated : Nat := 0
  columns_created : Nat := 0
  columns_updated : Nat := 0
  errors : List String := []
deriving DecidableEq

/-- The counter dict built by `search_and_sync_tables`. -/
structure SearchStats where
  tables_found : Nat := 0
  tables_synced : Nat := 0
  tables_created : Nat := 0
  tables_updated : Nat := 0
  columns_created : Nat := 0
  columns_updated : Nat := 0
  errors : List String := []
deriving DecidableEq

/-- Key set of the report dict returned by `discover_all_tables`
(`discovery_stats`, lines 37–46 of `discovery_service.py`). -/
def sweepReportKeys : List String :=
  ["catalogs_processed", "schemas_processed", "tables_discovered",
   "tables_created", "tables_updated", "columns_created", "columns_updated",
   "errors"]

/-- Key set of the report dict returned by `search_and_sync_tables`
(lines 382–390 of `discovery_service.py`). -/
def searchReportKeys : List String :=
  ["tables_found", "tables_synced", "tables_created", "tables_updated",
   "columns_created", "columns_updated", "errors"]

/-- The per-table loop of `discover_schema_tables`: a successful sync
counts the table as discovered and as created or updated; a raised
exception is caught, recorded, and the loop continues with the next table
using the pre-sync store (the rolled-back transaction). -/
def syncTablesLoop (env : Env) (userId : Nat) (tds : List TableData)
    (s : Store) (st : SweepStats) : Store × SweepStats :=
  match tds with
  | [] => (s, st)
  | td :: rest =>
    match sync_table env userId td s with
    | .ok sr =>
      syncTablesLoop env userId rest sr.1
        { st with
          tables_discovered := st.tables_discovered + 1
          tables_created := st.tables_created + (if sr.2.created then 1 else 0)
          tables_updated := st.tables_updated + (if sr.2.created then 0 else 1)
          columns_created := st.columns_created + sr.2.columns_created
          columns_updated := st.columns_updated + sr.2.columns_updated }
    | .error e =>
      syncTablesLoop env userId rest s
        { st with errors :=
            st.errors ++ ["Failed to sync table " ++ td.full_name ++ ": " ++ e] }

/-- `DiscoveryService.discover_schema_tables`: list the schema's tables and
sync each; if the listing itself raises, record the one error and return. -/
def discover_schema_tables (env : Env) (userId : Nat)
    (catalog_name schema_name : String) (s : Store) : Store × SweepStats :=
  match env.tablesOf catalog_name schema_name with
  | .error e =>
    (s, { errors := ["Failed to discover tables in " ++ catalog_name ++ "."
                      ++ schema_name ++ ": " ++ e] })
  | .ok tds => syncTablesLoop env userId tds s {}

/-- The per-schema loop of `discover_catalog_tables`, aggregating the
schema-level stats. -/
def walkSchemasLoop (env : Env) (userId : Nat) (catalog_name : String)
    (schemas : List String) (s : Store) (st : SweepStats) : Store × SweepStats :=
  match schemas with
  | [] => (s, st)
  | sch :: rest =>
    let r := discover_schema_tables env userId catalog_name sch s
    walkSchemasLoop env userId catalog_name rest r.1
      { st with
        schemas_processed := st.schemas_processed + 1
        tables_discovered := st.tables_discovered + r.2.tables_discovered
        tables_created := st.tables_created + r.2.tables_created
        tables_updated := st.tables_updated + r.2.tables_updated
        columns_created := st.columns_created + r.2.columns_created
        columns_updated := st.columns_updated + r.2.columns_updated
        errors := st.errors ++ r.2.errors }

/-- `DiscoveryService.discover_catalog_tables`: list the catalog's schemas
and walk each; a failing schema listing yields the one recorded error. -/
def discover_catalog_tables (env : Env) (userId : Nat) (catalog_name : String)
    (s : Store) : Store × SweepStats :=
  match env.schemasOf catalog_name with
  | .error e =>
    (s, { errors := ["Failed to discover schemas in catalog " ++ catalog_name
                      ++ ": " ++ e] })
  | .ok schemas => walkSchemasLoop env userId catalog_name schemas s {}

/-- The per-catalog loop of `discover_all_tables`.  `discover_catalog_tables`
never raises, so `catalogs_processed` is always incremented. -/
def walkCatalogsLoop (env : Env) (userId : Nat) (catalogs : List String)
    (s : Store) (st : SweepStats) : Store × SweepStats :=
  match catalogs with
  | [] => (s, st)
  | c :: rest =>
    let r := discover_catalog_tables env userId c s
    walkCatalogsLoop env userId rest r.1
      { st with
        catalogs_processed := st.catalogs_processed + 1
        schemas_processed := st.schemas_processed + r.2.schemas_processed
        tables_discovered := st.tables_discovered + r.2.tables_discovered
        tables_created := st.tables_created + r.2.tables_created
        tables_updated := st.tables_updated + r.2.tables_updated
        columns_created := st.columns_created + r.2.columns_created
        columns_updated := st.columns_updated + r.2.columns_updated
        errors := st.errors ++ r.2.errors }

/-- `DiscoveryService.discover_all_tables` — the sweep entry point.
`catalogs = []` models the Python-falsy "no catalog list given" case, in
which the catalog list is fetched from the service; if that fetch raises,
the report carries the one error and the store is untouched. -/
def discover_all_tables (env : Env) (userId : Nat) (catalogs : List String)
    (s : Store) : Store × SweepStats :=
  if catalogs.isEmpty then
    match env.catalogs with
    | .error e => (s, { errors := ["Failed to discover catalogs: " ++ e] })
    | .ok cats => walkCatalogsLoop env userId cats s {}
  else walkCatalogsLoop env userId catalogs s {}

/-- The match test of `search_tables`: term contained in the table name, or
the comment is truthy (present and nonempty) and contains the term, both
case-insensitively. -/
def matchesSearch (termLower : String) (td : TableData) : Bool :=
  strContains td.name.toLower termLower ||
    (match td.comment with
     | some c => !(c == "") && strContains c.toLower termLower
     | none => false)

/-- The per-schema search loop: a failing table listing is skipped
(`continue`), otherwise matching tables are collected. -/
def searchSchemasLoop (env : Env) (termLower catalog_name : String)
    (schemas : List String) (acc : List TableData) : List TableData :=
  match schemas with
  | [] => acc
  | sch :: rest =>
    match env.tablesOf catalog_name sch with
    | .error _ => searchSchemasLoop env termLower catalog_name rest acc
    | .ok tds =>
      searchSchemasLoop env termLower catalog_name rest
        (acc ++ tds.filter (matchesSearch termLower))

/-- The per-catalog search loop: a failing schema listing is skipped. -/
def searchCatalogsLoop (env : Env) (termLower : String)
    (catalogs : List String) (acc : List TableData) : List TableData :=
  match catalogs with
  | [] => acc
  | c :: rest =>
    match env.schemasOf c with
    | .error _ => searchCatalogsLoop env termLower rest acc
    | .ok schemas =>
      searchCatalogsLoop env termLower rest
        (searchSchemasLoop env termLower c schemas acc)

/-- `DatabricksService.search_tables`: enumerate the catalog tree (catalog
list fetched when none is given) and keep the tables matching the term;
only a failure to list any catalog at all raises. -/
def search_tables (env : Env) (search_term : String) (catalogs : List String) :
    Except String (List TableData) :=
  let termLower := search_term.toLower
  if catalogs.isEmpty then
    match env.catalogs with
    | .error e => .error ("Table search failed: " ++ e)
    | .ok cats => .ok (searchCatalogsLoop env termLower cats [])
  else .ok (searchCatalogsLoop env termLower catalogs [])

/-- The per-table loop of `search_and_sync_tables`, the search analogue of
`syncTablesLoop`. -/
def searchSyncLoop (env : Env) (userId : Nat) (tds : List TableData)
    (s : Store) (st : SearchStats) : Store × SearchStats :=
  match tds with
  | [] => (s, st)
  | td :: rest =>
    match sync_table env userId td s with
    | .ok sr =>
      searchSyncLoop env userId rest sr.1
        { st with
          tables_synced := st.tables_synced + 1
          tables_created := st.tables_created + (if sr.2.created then 1 else 0)
          tables_updated := st.tables_updated + (if sr.2.created then 0 else 1)
          columns_created := st.columns_created + sr.2.columns_created
          columns_updated := st.columns_updated + sr.2.columns_updated }
    | .error e =>
      searchSyncLoop env userId rest s
        { st with errors :=
            st.errors ++ ["Failed to sync table " ++ td.full_name ++ ": " ++ e] }

/-- `DiscoveryService.search_and_sync_tables` — the search entry point:
find matching tables, then sync each with per-table error isolation; only
a raising `search_tables` reaches the outer handler, which still returns a
report. -/
def search_and_sync_tables (env : Env) (userId : Nat) (search_term : String)
    (catalogs : List String) (s : Store) : Store × SearchStats :=
  match search_tables env search_term catalogs with
  | .error e => (s, { errors := ["Search and sync failed: " ++ e] })
  | .ok matching =>
    searchSyncLoop env userId matching s { tables_found := matching.length }

/-! ### Derived predicates over the store -/

/-- The natural key of a column row: `(table, column_name)`. -/
def colKey (c : SourceColumnRow) : Nat × String := (c.table_id, c.column_name)

/-- A table row with the given fully-qualified name exists. -/
def hasTable (s : Store) (fqn : String) : Bool :=
  (s.tables.find? (fun t => t.full_table_name == fqn)).isSome

/-- A column row with the given natural key exists. -/
def hasColKey (s : Store) (tid : Nat) (n : String) : Bool :=
  s.columns.any (fun c => c.table_id == tid && c.column_name == n)

/-- Error projection of an `Except` result. -/
def errOf {ε α : Type} : Except ε α → Option ε
  | .error e => some e
  | .ok _ => none

/-- Store well-formedness: the natural keys are unique, surrogate ids are
unique and below the autoincrement counters. -/
def Store.WF (s : Store) : Prop :=
  (s.tables.map (fun t => t.full_table_name)).Nodup ∧
  (s.tables.map (fun t => t.tid)).Nodup ∧
  (s.columns.map colKey).Nodup ∧
  (∀ t ∈ s.tables, t.tid < s.nextTableId) ∧
  (∀ c ∈ s.columns, c.cid < s.nextColumnId)

/-- The fully-qualified name `sync_table_columns` rebuilds from a row. -/
def rowFq (t : SourceTableRow) : String :=
  t.catalog_name ++ "." ++ t.schema_name ++ "." ++ t.table_name

/-- The fully-qualified name `sync_table_columns` would rebuild from a
table row's parts agrees with the stored `full_table_name` (true of every
row discovery itself creates). -/
def Cons (s : Store) : Prop :=
  ∀ t ∈ s.tables, rowFq t = t.full_table_name

/-- The fully-qualified name of a discovery record, as `discover_tables`
builds it. -/
def tdFq (td : TableData) : String :=
  td.catalog_name ++ "." ++ td.schema_name ++ "." ++ td.name

/-- An environment in which column listing and column persistence never
fail (profiling probes may still fail). -/
def EnvOk (env : Env) : Prop :=
  (∀ fq, errOf (env.rawColumnsOf fq) = none) ∧
  (∀ fq n, env.columnSaveError fq n = none)

/-- The column dicts `sync_table_columns` would obtain for a given
fully-qualified name. -/
def tdCols (env : Env) (fq : String) : List ColumnData :=
  match env.rawColumnsOf fq with
  | .error _ => []
  | .ok raws => discover_columns (env.probesOf fq) raws

/-! ### Lemmas about the column loop -/

theorem find?_eq_none_iff_any {α : Type} (l : List α) (p : α → Bool) :
    l.find? p = none ↔ l.any p = false := by
  simp [List.find?_eq_none, List.any_eq_false]

theorem syncColumnsLoop_tables (env : Env) (fq : String) (tid : Nat)
    (cds : List ColumnData) (s : Store) (a b : Nat) (s' : Store) (a' b' : Nat)
    (h : syncColumnsLoop env fq tid cds s a b = .ok (s', a', b')) :
    s'.tables = s.tables ∧ s'.nextTableId = s.nextTableId := by
  induction cds generalizing s a b with
  | nil =>
    simp only [syncColumnsLoop, Except.ok.injEq, Prod.mk.injEq] at h
    obtain ⟨h1, -, -⟩ := h
    subst h1
    exact ⟨rfl, rfl⟩
  | cons cd rest ih =>
    simp only [syncColumnsLoop] at h
    split at h
    · simp at h
    · split at h
      · have h2 := ih _ _ _ h; exact h2
      · have h2 := ih _ _ _ h; exact h2

theorem syncColumnsLoop_mem_other (env : Env) (fq : String) (tid : Nat)
    (cds : List ColumnData) (s : Store) (a b : Nat) (s' : Store) (a' b' : Nat)
    (h : syncColumnsLoop env fq tid cds s a b = .ok (s', a', b'))
    (c : SourceColumnRow) (hc : c ∈ s.columns) (hne : c.table_id ≠ tid) :
    c ∈ s'.columns := by
  induction cds generalizing s a b with
  | nil =>
    simp only [syncColumnsLoop, Except.ok.injEq, Prod.mk.injEq] at h
    obtain ⟨h1, -, -⟩ := h
    subst h1
    exact hc
  | cons cd rest ih =>
    simp only [syncColumnsLoop] at h
    split at h
    · simp at h
    · split at h
      · exact ih _ _ _ h (by simp only [List.mem_append]; exact Or.inl hc)
      · refine ih _ _ _ h ?_
        have heq : (fun c : SourceColumnRow =>
            if c.table_id == tid && c.column_name == cd.name
            then updateColumnRow env cd c else c) c = c := by
          simp only [beq_iff_eq]
          rw [if_neg]; simp [hne]
        have hmem := List.mem_map_of_mem (fun c : SourceColumnRow =>
            if c.table_id == tid && c.column_name == cd.name
            then updateColumnRow env cd c else c) hc
        rw [heq] at hmem
        exact hmem

theorem find?_isSome_eq_any {α : Type} (l : List α) (p : α → Bool) :
    (l.find? p).isSome = l.any p := by
  induction l with
  | nil => rfl
  | cons x xs ih => cases hx : p x <;> simp [List.find?_cons, hx, ih]

theorem colKey_updateColumnRow (env : Env) (cd : ColumnData) (c : SourceColumnRow) :
    colKey (updateColumnRow env cd c) = colKey c := rfl

theorem any_map_comp {α β : Type} (l : List α) (f : α → β) (p : β → Bool) :
    (l.map f).any p = l.any (fun x => p (f x)) := by
  induction l with
  | nil => rfl
  | cons x xs ih => simp only [List.map_cons, List.any_cons, ih]

theorem hasColKey_keys (s : Store) (tid : Nat) (n : String) :
    hasColKey s tid n
      = (s.columns.map colKey).any (fun k => k.1 == tid && k.2 == n) := by
  rw [hasColKey, any_map_comp]; rfl

/-- A column row of the synced table whose name is not among the discovered
columns passes through the upsert loop untouched. -/
theorem syncColumnsLoop_mem_vanished (env : Env) (fq : String) (tid : Nat)
    (cds : List ColumnData) (s : Store) (a b : Nat) (s' : Store) (a' b' : Nat)
    (h : syncColumnsLoop env fq tid cds s a b = .ok (s', a', b'))
    (c : SourceColumnRow) (hc : c ∈ s.columns)
    (hn : c.column_name ∉ cds.map (fun cd => cd.name)) :
    c ∈ s'.columns := by
  induction cds generalizing s a b with
  | nil =>
    simp only [syncColumnsLoop, Except.ok.injEq, Prod.mk.injEq] at h
    obtain ⟨h1, -, -⟩ := h
    subst h1
    exact hc
  | cons cd rest ih =>
    have hn' : c.column_name ∉ rest.map (fun cd => cd.name) := by
      intro hmem; exact hn (by simp [List.mem_map] at hmem ⊢; tauto)
    have hne : c.column_name ≠ cd.name := by
      intro hEq; exact hn (by simp [hEq])
    simp only [syncColumnsLoop] at h
    split at h
    · simp at h
    · split at h
      · exact ih _ _ _ h (by simp only [List.mem_append]; exact Or.inl hc) hn'
      · refine ih _ _ _ h ?_ hn'
        have heq : (fun c : SourceColumnRow =>
            if c.table_id == tid && c.column_name == cd.name
            then updateColumnRow env cd c else c) c = c := by
          simp only [beq_iff_eq]
          rw [if_neg]; simp [hne]
        have hmem := List.mem_map_of_mem (fun c : SourceColumnRow =>
            if c.table_id == tid && c.column_name == cd.name
            then updateColumnRow env cd c else c) hc
        rw [heq] at hmem
        exact hmem

/-- The upsert loop never sets a key flag: if no stored column asserts a
key flag, none does afterwards. -/
theorem syncColumnsLoop_flags (env : Env) (fq : String) (tid : Nat)
    (cds : List ColumnData) (s : Store) (a b : Nat) (s' : Store) (a' b' : Nat)
    (h : syncColumnsLoop env fq tid cds s a b = .ok (s', a', b'))
    (hs : ∀ c ∈ s.columns, c.is_primary_key = false ∧ c.is_foreign_key = false) :
    ∀ c ∈ s'.columns, c.is_primary_key = false ∧ c.is_foreign_key = false := by
  induction cds generalizing s a b with
  | nil =>
    simp only [syncColumnsLoop, Except.ok.injEq, Prod.mk.injEq] at h
    obtain ⟨h1, -, -⟩ := h
    subst h1
    exact hs
  | cons cd rest ih =>
    simp only [syncColumnsLoop] at h
    split at h
    · simp at h
    · split at h
      · refine ih _ _ _ h ?_
        intro c hc
        rcases List.mem_append.mp hc with hc | hc
        · exact hs c hc
        · simp only [List.mem_singleton] at hc
          subst hc
          exact ⟨rfl, rfl⟩
      · refine ih _ _ _ h ?_
        intro c hc
        rcases List.mem_map.mp hc with ⟨c0, hc0, hEq⟩
        subst hEq
        split
        · exact hs c0 hc0
        · exact hs c0 hc0

/-- Column natural keys already present survive the upsert loop. -/
theorem syncColumnsLoop_key_mono (env : Env) (fq : String) (tid : Nat)
    (cds : List ColumnData) (s : Store) (a b : Nat) (s' : Store) (a' b' : Nat)
    (h : syncColumnsLoop env fq tid cds s a b = .ok (s', a', b'))
    (t : Nat) (n : String) (hk : hasColKey s t n = true) :
    hasColKey s' t n = true := by
  induction cds generalizing s a b with
  | nil =>
    simp only [syncColumnsLoop, Except.ok.injEq, Prod.mk.injEq] at h
    obtain ⟨h1, -, -⟩ := h
    subst h1
    exact hk
  | cons cd rest ih =>
    simp only [syncColumnsLoop] at h
    split at h
    · simp at h
    · split at h
      · refine ih _ _ _ h ?_
        simp only [hasColKey, List.any_append] at *
        rw [hk]; rfl
      · refine ih _ _ _ h ?_
        rw [hasColKey_keys] at hk ⊢
        have : (List.map (fun c =>
            if c.table_id == tid && c.column_name == cd.name
            then updateColumnRow env cd c else c) s.columns).map colKey
            = s.columns.map colKey := by
          rw [List.map_map]
          refine List.map_congr_left ?_
          intro c _
          show colKey (if c.table_id == tid && c.column_name == cd.name
            then updateColumnRow env cd c else c) = colKey c
          split <;> rfl
        rw [this]
        exact hk

/-- After a successful upsert loop every discovered column name has a row
with the synced table's key. -/
theorem syncColumnsLoop_keys_present (env : Env) (fq : String) (tid : Nat)
    (cds : List ColumnData) (s : Store) (a b : Nat) (s' : Store) (a' b' : Nat)
    (h : syncColumnsLoop env fq tid cds s a b = .ok (s', a', b')) :
    ∀ cd ∈ cds, hasColKey s' tid cd.name = true := by
  induction cds generalizing s a b with
  | nil => intro cd hcd; cases hcd
  | cons cd rest ih =>
    intro cd' hcd'
    simp only [syncColumnsLoop] at h
    split at h
    · simp at h
    case _ hsv =>
      rcases List.mem_cons.mp hcd' with hEq | hmem
      · subst hEq
        split at h
        case _ hf =>
          refine syncColumnsLoop_key_mono env fq tid rest _ _ _ _ _ _ h tid cd'.name ?_
          simp only [hasColKey, List.any_append]
          have : [newColumnRow env s tid cd'].any
              (fun c => c.table_id == tid && c.column_name == cd'.name) = true := by
            simp [newColumnRow]
          rw [this, Bool.or_true]
        case _ c0 hf =>
          refine syncColumnsLoop_key_mono env fq tid rest _ _ _ _ _ _ h tid cd'.name ?_
          have : hasColKey s tid cd'.name = true := by
            rw [hasColKey, ← find?_isSome_eq_any, hf]
            rfl
          rw [hasColKey_keys] at this ⊢
          have hkeys : (List.map (fun c =>
              if c.table_id == tid && c.column_name == cd'.name
              then updateColumnRow env cd' c else c) s.columns).map colKey
              = s.columns.map colKey := by
            rw [List.map_map]
            refine List.map_congr_left ?_
            intro c _
            show colKey (if c.table_id == tid && c.column_name == cd'.name
              then updateColumnRow env cd' c else c) = colKey c
            split <;> rfl
          rw [hkeys]
          exact this
      · split at h
        · exact ih _ _ _ h cd' hmem
        · exact ih _ _ _ h cd' hmem

theorem updateBranch_keys (env : Env) (cd : ColumnData) (tid : Nat)
    (l : List SourceColumnRow) :
    (l.map (fun c => if c.table_id == tid && c.column_name == cd.name
        then updateColumnRow env cd c else c)).map colKey = l.map colKey := by
  rw [List.map_map]
  refine List.map_congr_left ?_
  intro c _
  show colKey (if c.table_id == tid && c.column_name == cd.name
    then updateColumnRow env cd c else c) = colKey c
  split <;> rfl

/-- Raising inside the column loop is exactly a column save failing; the
first failing save's message is the raised exception. -/
theorem syncColumnsLoop_err (env : Env) (fq : String) (tid : Nat)
    (cds : List ColumnData) :
    ∀ (s : Store) (a b : Nat),
      errOf (syncColumnsLoop env fq tid cds s a b)
        = cds.findSome? (fun cd => env.columnSaveError fq cd.name) := by
  induction cds with
  | nil => intro s a b; rfl
  | cons cd rest ih =>
    intro s a b
    simp only [syncColumnsLoop, List.findSome?_cons]
    cases hsv : env.columnSaveError fq cd.name with
    | some e => rfl
    | none =>
      cases hf : s.columns.find?
          (fun c => c.table_id == tid && c.column_name == cd.name) with
      | none => exact ih _ _ _
      | some c0 => exact ih _ _ _

/-- Row-count / counter bookkeeping of the column loop: every increment of
`columns_created` corresponds to exactly one appended row, and every
processed column is counted once. -/
theorem syncColumnsLoop_counts (env : Env) (fq : String) (tid : Nat)
    (cds : List ColumnData) (s : Store) (a b : Nat) (s' : Store) (a' b' : Nat)
    (h : syncColumnsLoop env fq tid cds s a b = .ok (s', a', b')) :
    s'.columns.length + a = s.columns.length + a'
      ∧ a' + b' = a + b + cds.length := by
  induction cds generalizing s a b with
  | nil =>
    simp only [syncColumnsLoop, Except.ok.injEq, Prod.mk.injEq] at h
    obtain ⟨h1, h2, h3⟩ := h
    subst h1; subst h2; subst h3
    exact ⟨rfl, rfl⟩
  | cons cd rest ih =>
    simp only [syncColumnsLoop] at h
    split at h
    · simp at h
    · split at h
      · have h2 := ih _ _ _ h
        simp only [List.length_append, List.length_cons, List.length_nil] at h2 ⊢
        omega
      · have h2 := ih _ _ _ h
        simp only [List.length_map, List.length_cons] at h2 ⊢
        omega

theorem cid_updateColumnRow (env : Env) (cd : ColumnData) (c : SourceColumnRow) :
    (updateColumnRow env cd c).cid = c.cid := rfl

/-- The column loop preserves key uniqueness and the id bounds. -/
theorem syncColumnsLoop_wf (env : Env) (fq : String) (tid : Nat)
    (cds : List ColumnData) (s : Store) (a b : Nat) (s' : Store) (a' b' : Nat)
    (h : syncColumnsLoop env fq tid cds s a b = .ok (s', a', b'))
    (hnodup : (s.columns.map colKey).Nodup)
    (hbound : ∀ c ∈ s.columns, c.cid < s.nextColumnId) :
    (s'.columns.map colKey).Nodup
      ∧ (∀ c ∈ s'.columns, c.cid < s'.nextColumnId)
      ∧ s.nextColumnId ≤ s'.nextColumnId := by
  induction cds generalizing s a b with
  | nil =>
    simp only [syncColumnsLoop, Except.ok.injEq, Prod.mk.injEq] at h
    obtain ⟨h1, -, -⟩ := h
    subst h1
    exact ⟨hnodup, hbound, le_refl _⟩
  | cons cd rest ih =>
    simp only [syncColumnsLoop] at h
    split at h
    · simp at h
    · split at h
      case _ hf =>
        have hnotin : (tid, cd.name) ∉ s.columns.map colKey := by
          intro hmem
          rcases List.mem_map.mp hmem with ⟨c0, hc0, hkey⟩
          have := List.find?_eq_none.mp hf c0 hc0
          simp only [colKey, Prod.mk.injEq] at hkey
          simp [hkey.1, hkey.2] at this
        have hnodup' : ((s.columns ++ [newColumnRow env s tid cd]).map colKey).Nodup := by
          rw [List.map_append, List.nodup_append]
          refine ⟨hnodup, by simp, ?_⟩
          intro k hk
          simp only [List.map_cons, List.map_nil, List.mem_singleton]
          intro hEq
          subst hEq
          exact hnotin hk
        have hbound' : ∀ c ∈ s.columns ++ [newColumnRow env s tid cd],
            c.cid < s.nextColumnId + 1 := by
          intro c hc
          rcases List.mem_append.mp hc with hc | hc
          · exact Nat.lt_succ_of_lt (hbound c hc)
          · simp only [List.mem_singleton] at hc
            subst hc
            exact Nat.lt_succ_self _
        have h2 := ih _ _ _ h hnodup' hbound'
        exact ⟨h2.1, h2.2.1, le_trans (Nat.le_succ _) h2.2.2⟩
      · have hnodup' := hnodup
        rw [← updateBranch_keys env cd tid s.columns] at hnodup'
        have hbound' : ∀ c ∈ s.columns.map (fun c =>
            if c.table_id == tid && c.column_name == cd.name
            then updateColumnRow env cd c else c), c.cid < s.nextColumnId := by
          intro c hc
          rcases List.mem_map.mp hc with ⟨c0, hc0, hEq⟩
          subst hEq
          have := hbound c0 hc0
          split <;> simpa [cid_updateColumnRow]
        have h2 := ih _ _ _ h hnodup' hbound'
        exact h2

/-- When every discovered column already exists and saves succeed, the loop
takes the update path throughout: no creates, one update per column, no new
rows, keys unchanged. -/
theorem syncColumnsLoop_all_update (env : Env) (fq : String) (tid : Nat)
    (cds : List ColumnData)
    (hsave : ∀ n, env.columnSaveError fq n = none) :
    ∀ (s : Store) (a b : Nat),
      (∀ cd ∈ cds, hasColKey s tid cd.name = true) →
      ∃ s', syncColumnsLoop env fq tid cds s a b = .ok (s', a, b + cds.length)
        ∧ s'.columns.map colKey = s.columns.map colKey
        ∧ s'.columns.length = s.columns.length
        ∧ s'.nextColumnId = s.nextColumnId
        ∧ s'.tables = s.tables
        ∧ s'.nextTableId = s.nextTableId := by
  induction cds with
  | nil =>
    intro s a b _
    exact ⟨s, by simp [syncColumnsLoop], rfl, rfl, rfl, rfl, rfl⟩
  | cons cd rest ih =>
    intro s a b hkeys
    have hk := hkeys cd (List.mem_cons_self _ _)
    have hfind : (s.columns.find?
        (fun c => c.table_id == tid && c.column_name == cd.name)).isSome = true := by
      rw [find?_isSome_eq_any]
      exact hk
    rcases Option.isSome_iff_exists.mp hfind with ⟨c0, hf⟩
    have hkeys' : ∀ cd' ∈ rest,
        hasColKey { s with columns := s.columns.map (fun c =>
          if c.table_id == tid && c.column_name == cd.name
          then updateColumnRow env cd c else c) } tid cd'.name = true := by
      intro cd' hcd'
      rw [hasColKey_keys]
      show ((s.columns.map (fun c =>
          if c.table_id == tid && c.column_name == cd.name
          then updateColumnRow env cd c else c)).map colKey).any _ = true
      rw [updateBranch_keys]
      rw [← hasColKey_keys]
      exact hkeys cd' (List.mem_cons_of_mem _ hcd')
    rcases ih _ a (b + 1) hkeys' with ⟨s', hloop, hkeysEq, hlen, hnext, htab, hntid⟩
    refine ⟨s', ?_, ?_, ?_, ?_, ?_, ?_⟩
    · simp only [syncColumnsLoop, hsave cd.name, hf]
      rw [hloop]
      have : b + 1 + rest.length = b + (cd :: rest).length := by
        simp [List.length_cons]; omega
      rw [this]
    · rw [hkeysEq]
      exact updateBranch_keys env cd tid s.columns
    · rw [hlen]; simp
    · exact hnext
    · exact htab
    · exact hntid

theorem map_colKey_keep (l : List SourceColumnRow)
    (f : SourceColumnRow → SourceColumnRow)
    (hf : ∀ c, colKey (f c) = colKey c) :
    (l.map f).map colKey = l.map colKey := by
  rw [List.map_map]
  exact List.map_congr_left (fun c _ => hf c)

/-- The raised exception of `sync_table_columns` for a table whose parts
join to `fq`: either the column listing failed, or the first failing
column save. -/
def syncErrorOf (env : Env) (fq : String) : Option String :=
  match env.rawColumnsOf fq with
  | .error e => some e
  | .ok raws =>
    (discover_columns (env.probesOf fq) raws).findSome?
      (fun cd => env.columnSaveError fq cd.name)

theorem mem_map_self_of_fix {α : Type} (l : List α) (f : α → α) (x : α)
    (hx : x ∈ l) (hfx : f x = x) : x ∈ l.map f := by
  rw [← hfx]
  exact List.mem_map_of_mem f hx

theorem mem_map_image {α : Type} (l : List α) (f : α → α) (x y : α)
    (hx : x ∈ l) (hxy : f x = y) : y ∈ l.map f := by
  rw [← hxy]
  exact List.mem_map_of_mem f hx

theorem sync_table_columns_err (env : Env) (t : SourceTableRow) (s : Store) :
    errOf (sync_table_columns env t s) = syncErrorOf env (rowFq t) := by
  simp only [sync_table_columns, syncErrorOf, rowFq]
  cases hr : env.rawColumnsOf (t.catalog_name ++ "." ++ t.schema_name ++ "." ++ t.table_name) with
  | error e => rfl
  | ok raws =>
    dsimp only
    rw [← syncColumnsLoop_err env (t.catalog_name ++ "." ++ t.schema_name ++ "." ++ t.table_name)
        t.tid (discover_columns
          (env.probesOf (t.catalog_name ++ "." ++ t.schema_name ++ "." ++ t.table_name)) raws) s 0 0]
    cases hl : syncColumnsLoop env (t.catalog_name ++ "." ++ t.schema_name ++ "." ++ t.table_name)
        t.tid (discover_columns
          (env.probesOf (t.catalog_name ++ "." ++ t.schema_name ++ "." ++ t.table_name)) raws) s 0 0 with
    | error e => rfl
    | ok p =>
      obtain ⟨s1, cr, up⟩ := p
      rfl

theorem sync_table_columns_tables (env : Env) (t : SourceTableRow) (s : Store)
    (s' : Store) (cr up : Nat)
    (h : sync_table_columns env t s = .ok (s', cr, up)) :
    s'.tables = s.tables ∧ s'.nextTableId = s.nextTableId := by
  simp only [sync_table_columns] at h
  split at h
  · simp at h
  · split at h
    · simp at h
    case _ s1 cr1 up1 hl =>
      simp only [Except.ok.injEq, Prod.mk.injEq] at h
      obtain ⟨h1, -, -⟩ := h
      subst h1
      have := syncColumnsLoop_tables _ _ _ _ _ _ _ _ _ _ hl
      exact this

theorem sync_table_columns_mem_other (env : Env) (t : SourceTableRow) (s : Store)
    (s' : Store) (cr up : Nat)
    (h : sync_table_columns env t s = .ok (s', cr, up))
    (c : SourceColumnRow) (hc : c ∈ s.columns) (hne : c.table_id ≠ t.tid) :
    c ∈ s'.columns := by
  simp only [sync_table_columns] at h
  split at h
  · simp at h
  · split at h
    · simp at h
    case _ s1 cr1 up1 hl =>
      simp only [Except.ok.injEq, Prod.mk.injEq] at h
      obtain ⟨h1, -, -⟩ := h
      subst h1
      have hc1 := syncColumnsLoop_mem_other _ _ _ _ _ _ _ _ _ _ hl c hc hne
      refine mem_map_self_of_fix _ _ _ hc1 ?_
      simp [hne]

/-- Core of the vanished-column rule: a stored column of the synced table
whose name is absent from the discovered set survives with only its
`last_updated` refreshed. -/
theorem sync_table_columns_vanished (env : Env) (t : SourceTableRow) (s : Store)
    (s' : Store) (cr up : Nat)
    (h : sync_table_columns env t s = .ok (s', cr, up))
    (c : SourceColumnRow) (hc : c ∈ s.columns) (hct : c.table_id = t.tid)
    (hn : c.column_name ∉ (tdCols env (rowFq t)).map (fun cd => cd.name)) :
    { c with last_updated := env.now } ∈ s'.columns := by
  simp only [sync_table_columns] at h
  split at h
  case _ e hr => simp at h
  case _ raws hr =>
    rw [show (t.catalog_name ++ "." ++ t.schema_name ++ "." ++ t.table_name) = rowFq t from rfl] at h hr
    split at h
    · simp at h
    case _ s1 cr1 up1 hl =>
      simp only [Except.ok.injEq, Prod.mk.injEq] at h
      obtain ⟨h1, -, -⟩ := h
      subst h1
      have hcols : tdCols env (rowFq t) = discover_columns (env.probesOf (rowFq t)) raws := by
        simp [tdCols, hr]
      rw [hcols] at hn
      have hc1 := syncColumnsLoop_mem_vanished _ _ _ _ _ _ _ _ _ _ hl c hc hn
      have hcond : (c.table_id == t.tid
          && ((s.columns.filter (fun c => c.table_id == t.tid)).map
              (fun c => c.column_name)).contains c.column_name
          && !((discover_columns (env.probesOf (rowFq t)) raws).map
              (fun cd => cd.name)).contains c.column_name) = true := by
        have h1 : (c.table_id == t.tid) = true := by simp [hct]
        have h2 : ((s.columns.filter (fun c => c.table_id == t.tid)).map
            (fun c => c.column_name)).contains c.column_name = true := by
          simp only [List.contains_eq_any_beq, List.any_eq_true]
          refine ⟨c.column_name, ?_, by simp⟩
          exact List.mem_map_of_mem _ (List.mem_filter.mpr ⟨hc, by simp [hct]⟩)
        have h3 : ((discover_columns (env.probesOf (rowFq t)) raws).map
            (fun cd => cd.name)).contains c.column_name = false := by
          rw [List.contains_eq_any_beq]
          rw [List.any_eq_false]
          intro n hnmem
          simp only [beq_iff_eq]
          intro hEq
          exact hn (by rw [← hEq] at hnmem; exact hnmem)
        rw [h1, h2, h3]
        rfl
      refine mem_map_image _ _ _ _ hc1 ?_
      simp only [hcond, eq_self_iff_true, if_true]

/-- `sync_table_columns` never sets a key flag. -/
theorem sync_table_columns_flags (env : Env) (t : SourceTableRow) (s : Store)
    (s' : Store) (cr up : Nat)
    (h : sync_table_columns env t s = .ok (s', cr, up))
    (hs : ∀ c ∈ s.columns, c.is_primary_key = false ∧ c.is_foreign_key = false) :
    ∀ c ∈ s'.columns, c.is_primary_key = false ∧ c.is_foreign_key = false := by
  simp only [sync_table_columns] at h
  split at h
  · simp at h
  · split at h
    · simp at h
    case _ s1 cr1 up1 hl =>
      simp only [Except.ok.injEq, Prod.mk.injEq] at h
      obtain ⟨h1, -, -⟩ := h
      subst h1
      have hflags := syncColumnsLoop_flags _ _ _ _ _ _ _ _ _ _ hl hs
      intro c hcmem
      rcases List.mem_map.mp hcmem with ⟨c0, hc0, hEq⟩
      subst hEq
      have := hflags c0 hc0
      split
      · exact this
      · exact this

theorem sync_table_columns_counts (env : Env) (t : SourceTableRow) (s : Store)
    (s' : Store) (cr up : Nat)
    (h : sync_table_columns env t s = .ok (s', cr, up)) :
    s'.columns.length = s.columns.length + cr
      ∧ cr + up = (tdCols env (rowFq t)).length := by
  simp only [sync_table_columns] at h
  split at h
  case _ e hr => simp at h
  case _ raws hr =>
    rw [show (t.catalog_name ++ "." ++ t.schema_name ++ "." ++ t.table_name) = rowFq t from rfl] at h hr
    split at h
    · simp at h
    case _ s1 cr1 up1 hl =>
      simp only [Except.ok.injEq, Prod.mk.injEq] at h
      obtain ⟨h1, h2, h3⟩ := h
      subst h1; subst h2; subst h3
      have hcts := syncColumnsLoop_counts _ _ _ _ _ _ _ _ _ _ hl
      have hcols : tdCols env (rowFq t) = discover_columns (env.probesOf (rowFq t)) raws := by
        simp [tdCols, hr]
      constructor
      · simp only [List.length_map]
        omega
      · rw [hcols]
        omega

theorem sync_table_columns_wf (env : Env) (t : SourceTableRow) (s : Store)
    (s' : Store) (cr up : Nat)
    (h : sync_table_columns env t s = .ok (s', cr, up))
    (hnodup : (s.columns.map colKey).Nodup)
    (hbound : ∀ c ∈ s.columns, c.cid < s.nextColumnId) :
    (s'.columns.map colKey).Nodup
      ∧ (∀ c ∈ s'.columns, c.cid < s'.nextColumnId)
      ∧ s.nextColumnId ≤ s'.nextColumnId := by
  simp only [sync_table_columns] at h
  split at h
  · simp at h
  · split at h
    · simp at h
    case _ s1 cr1 up1 hl =>
      simp only [Except.ok.injEq, Prod.mk.injEq] at h
      obtain ⟨h1, -, -⟩ := h
      subst h1
      have hwf := syncColumnsLoop_wf _ _ _ _ _ _ _ _ _ _ hl hnodup hbound
      refine ⟨?_, ?_, hwf.2.2⟩
      · rw [map_colKey_keep]
        · exact hwf.1
        · intro c; split <;> rfl
      · intro c hcmem
        rcases List.mem_map.mp hcmem with ⟨c0, hc0, hEq⟩
        subst hEq
        have := hwf.2.1 c0 hc0
        split <;> simpa

theorem errOf_eq_none {ε α : Type} (x : Except ε α) :
    errOf x = none ↔ ∃ a, x = .ok a := by
  cases x <;> simp [errOf]

theorem sync_table_columns_key_mono (env : Env) (t : SourceTableRow) (s : Store)
    (s' : Store) (cr up : Nat)
    (h : sync_table_columns env t s = .ok (s', cr, up))
    (t' : Nat) (n : String) (hk : hasColKey s t' n = true) :
    hasColKey s' t' n = true := by
  simp only [sync_table_columns] at h
  split at h
  · simp at h
  · split at h
    · simp at h
    case _ s1 cr1 up1 hl =>
      simp only [Except.ok.injEq, Prod.mk.injEq] at h
      obtain ⟨h1, -, -⟩ := h
      subst h1
      have hk1 := syncColumnsLoop_key_mono _ _ _ _ _ _ _ _ _ _ hl t' n hk
      rw [hasColKey_keys]
      dsimp only
      rw [map_colKey_keep]
      · rw [← hasColKey_keys]; exact hk1
      · intro c; split <;> rfl

theorem sync_table_columns_keys_present (env : Env) (t : SourceTableRow) (s : Store)
    (s' : Store) (cr up : Nat)
    (h : sync_table_columns env t s = .ok (s', cr, up)) :
    ∀ cd ∈ tdCols env (rowFq t), hasColKey s' t.tid cd.name = true := by
  simp only [sync_table_columns] at h
  split at h
  case _ e hr =>
    simp at h
  case _ raws hr =>
    rw [show (t.catalog_name ++ "." ++ t.schema_name ++ "." ++ t.table_name) = rowFq t from rfl] at h hr
    split at h
    · simp at h
    case _ s1 cr1 up1 hl =>
      simp only [Except.ok.injEq, Prod.mk.injEq] at h
      obtain ⟨h1, -, -⟩ := h
      subst h1
      intro cd hcd
      rw [show tdCols env (rowFq t) = discover_columns (env.probesOf (rowFq t)) raws
          from by simp [tdCols, hr]] at hcd
      have hk1 := syncColumnsLoop_keys_present _ _ _ _ _ _ _ _ _ _ hl cd hcd
      rw [hasColKey_keys]
      dsimp only
      rw [map_colKey_keep]
      · rw [← hasColKey_keys]; exact hk1
      · intro c; split <;> rfl

/-- Under a healthy environment (column listing and saves succeed),
`sync_table_columns` cannot raise. -/
theorem sync_table_columns_ok (env : Env) (t : SourceTableRow) (s : Store)
    (hsave : ∀ n, env.columnSaveError (rowFq t) n = none)
    (hraw : errOf (env.rawColumnsOf (rowFq t)) = none) :
    ∃ p, sync_table_columns env t s = .ok p := by
  rw [← errOf_eq_none]
  rw [sync_table_columns_err]
  rw [syncErrorOf]
  rcases (errOf_eq_none _).mp hraw with ⟨raws, hr⟩
  rw [hr]
  rw [List.findSome?_eq_none_iff]
  intro cd _
  exact hsave cd.name

/-- When every discovered column already exists and the environment is
healthy, `sync_table_columns` updates every column, creates none, and
leaves the set of rows (by natural key) unchanged. -/
theorem sync_table_columns_all_update (env : Env) (t : SourceTableRow) (s : Store)
    (hsave : ∀ n, env.columnSaveError (rowFq t) n = none)
    (hraw : errOf (env.rawColumnsOf (rowFq t)) = none)
    (hkeys : ∀ cd ∈ tdCols env (rowFq t), hasColKey s t.tid cd.name = true) :
    ∃ s', sync_table_columns env t s = .ok (s', 0, (tdCols env (rowFq t)).length)
      ∧ s'.columns.map colKey = s.columns.map colKey
      ∧ s'.columns.length = s.columns.length
      ∧ s'.nextColumnId = s.nextColumnId
      ∧ s'.tables = s.tables
      ∧ s'.nextTableId = s.nextTableId := by
  rcases (errOf_eq_none _).mp hraw with ⟨raws, hr⟩
  have hcols : tdCols env (rowFq t) = discover_columns (env.probesOf (rowFq t)) raws := by
    simp [tdCols, hr]
  rw [hcols] at hkeys
  rcases syncColumnsLoop_all_update env (rowFq t) t.tid
      (discover_columns (env.probesOf (rowFq t)) raws) hsave s 0 0 hkeys with
    ⟨s1, hloop, hkeysEq, hlen, hnext, htab, hntid⟩
  rw [Nat.zero_add] at hloop
  rw [hcols]
  simp only [sync_table_columns]
  rw [show (t.catalog_name ++ "." ++ t.schema_name ++ "." ++ t.table_name) = rowFq t from rfl]
  rw [hr]
  dsimp only
  rw [hloop]
  refine ⟨_, rfl, ?_, ?_, ?_, ?_, ?_⟩
  · dsimp only
    rw [map_colKey_keep]
    · exact hkeysEq
    · intro c; split <;> rfl
  · dsimp only
    rw [List.length_map]
    exact hlen
  · exact hnext
  · exact htab
  · exact hntid

/-! ### Lemmas about `sync_table` -/

theorem fullname_updateTableRow (env : Env) (td : TableData) (t : SourceTableRow) :
    (updateTableRow env td t).full_table_name = t.full_table_name := rfl

theorem tid_updateTableRow (env : Env) (td : TableData) (t : SourceTableRow) :
    (updateTableRow env td t).tid = t.tid := rfl

theorem map_fullname_keep (l : List SourceTableRow)
    (f : SourceTableRow → SourceTableRow)
    (hf : ∀ t, (f t).full_table_name = t.full_table_name) :
    (l.map f).map (fun t => t.full_table_name)
      = l.map (fun t => t.full_table_name) := by
  rw [List.map_map]
  exact List.map_congr_left (fun t _ => hf t)

theorem find?_map_fullpres (l : List SourceTableRow)
    (f : SourceTableRow → SourceTableRow)
    (hf : ∀ t, (f t).full_table_name = t.full_table_name) (fqn : String) :
    (l.map f).find? (fun t => t.full_table_name == fqn)
      = (l.find? (fun t => t.full_table_name == fqn)).map f := by
  induction l with
  | nil => rfl
  | cons x xs ih =>
    simp only [List.map_cons, List.find?_cons]
    cases hx : (x.full_table_name == fqn) with
    | true =>
      rw [show ((f x).full_table_name == fqn) = true from by rw [hf]; exact hx]
      rfl
    | false =>
      rw [show ((f x).full_table_name == fqn) = false from by rw [hf]; exact hx]
      exact ih

/-- Full-name bookkeeping of `sync_table`: an update leaves the list of
stored full names unchanged, a create appends exactly the new name. -/
theorem sync_table_names (env : Env) (u : Nat) (td : TableData) (s : Store)
    (s' : Store) (r : TableSyncStats)
    (h : sync_table env u td s = .ok (s', r)) :
    (r.created = true →
        s'.tables.map (fun t => t.full_table_name)
          = s.tables.map (fun t => t.full_table_name) ++ [td.full_name])
      ∧ (r.created = false →
        s'.tables.map (fun t => t.full_table_name)
          = s.tables.map (fun t => t.full_table_name)) := by
  simp only [sync_table] at h
  split at h
  case _ hf =>
    split at h
    · simp at h
    case _ s2 cr up hc =>
      simp only [Except.ok.injEq, Prod.mk.injEq] at h
      obtain ⟨h1, h2⟩ := h
      subst h1; subst h2
      constructor
      · intro _
        have htab := (sync_table_columns_tables _ _ _ _ _ _ hc).1
        simp only [completeTable]
        rw [map_fullname_keep]
        · rw [htab]
          simp only [List.map_append]
          rfl
        · intro t; split <;> rfl
      · intro hcr; simp at hcr
  case _ t0 hf =>
    split at h
    · simp at h
    case _ s2 cr up hc =>
      simp only [Except.ok.injEq, Prod.mk.injEq] at h
      obtain ⟨h1, h2⟩ := h
      subst h1; subst h2
      constructor
      · intro hcr; simp at hcr
      · intro _
        have htab := (sync_table_columns_tables _ _ _ _ _ _ hc).1
        simp only [completeTable]
        rw [map_fullname_keep]
        · rw [htab]
          dsimp only
          rw [map_fullname_keep]
          intro t; split <;> rfl
        · intro t; split <;> rfl

/-- A table row with a different fully-qualified name is untouched by
`sync_table`. -/
theorem sync_table_frame_table (env : Env) (u : Nat) (td : TableData) (s : Store)
    (s' : Store) (r : TableSyncStats)
    (h : sync_table env u td s = .ok (s', r))
    (t : SourceTableRow) (ht : t ∈ s.tables) (hne : t.full_table_name ≠ td.full_name) :
    t ∈ s'.tables := by
  have hfix : ∀ (g : SourceTableRow → SourceTableRow),
      (∀ x, x.full_table_name ≠ td.full_name → g x = x) → True := fun _ _ => trivial
  simp only [sync_table] at h
  have hbeq : (t.full_table_name == td.full_name) = false := by
    simp [hne]
  split at h
  case _ hf =>
    split at h
    · simp at h
    case _ s2 cr up hc =>
      simp only [Except.ok.injEq, Prod.mk.injEq] at h
      obtain ⟨h1, -⟩ := h
      subst h1
      have htab := (sync_table_columns_tables _ _ _ _ _ _ hc).1
      simp only [completeTable]
      rw [htab]
      refine mem_map_self_of_fix _ _ _ ?_ ?_
      · dsimp only
        exact List.mem_append.mpr (Or.inl ht)
      · rw [hbeq]
        simp
  case _ t0 hf =>
    split at h
    · simp at h
    case _ s2 cr up hc =>
      simp only [Except.ok.injEq, Prod.mk.injEq] at h
      obtain ⟨h1, -⟩ := h
      subst h1
      have htab := (sync_table_columns_tables _ _ _ _ _ _ hc).1
      simp only [completeTable]
      rw [htab]
      dsimp only
      have ht1 : t ∈ s.tables.map (fun x =>
          if x.full_table_name == td.full_name then updateTableRow env td x else x) := by
        refine mem_map_self_of_fix _ _ _ ht ?_
        rw [hbeq]
        simp
      refine mem_map_self_of_fix _ _ _ ht1 ?_
      rw [hbeq]
      simp

theorem fullname_completeRow (env : Env) (t : SourceTableRow) :
    (completeRow env t).full_table_name = t.full_table_name := rfl

theorem tid_completeRow (env : Env) (t : SourceTableRow) :
    (completeRow env t).tid = t.tid := rfl

/-- A column row belonging to a table other than the synced one is
untouched by `sync_table`. -/
theorem sync_table_frame_columns (env : Env) (u : Nat) (td : TableData) (s : Store)
    (s' : Store) (r : TableSyncStats)
    (h : sync_table env u td s = .ok (s', r))
    (c : SourceColumnRow) (t : SourceTableRow)
    (hc : c ∈ s.columns) (ht : t ∈ s.tables) (hid : c.table_id = t.tid)
    (hne : t.full_table_name ≠ td.full_name)
    (hnodupTid : (s.tables.map (fun t => t.tid)).Nodup)
    (hbound : ∀ t' ∈ s.tables, t'.tid < s.nextTableId) :
    c ∈ s'.columns := by
  simp only [sync_table] at h
  split at h
  case _ hf =>
    split at h
    · simp at h
    case _ s2 cr up hc2 =>
      simp only [Except.ok.injEq, Prod.mk.injEq] at h
      obtain ⟨h1, -⟩ := h
      subst h1
      have hlt := hbound t ht
      have hneid : c.table_id ≠ (newTableRow env u s td).tid := by
        rw [hid]
        intro hEq
        rw [show (newTableRow env u s td).tid = s.nextTableId from rfl] at hEq
        omega
      have := sync_table_columns_mem_other _ _ _ _ _ _ hc2 c hc hneid
      exact this
  case _ t0 hf =>
    split at h
    · simp at h
    case _ s2 cr up hc2 =>
      simp only [Except.ok.injEq, Prod.mk.injEq] at h
      obtain ⟨h1, -⟩ := h
      subst h1
      have ht0mem := List.mem_of_find?_eq_some hf
      have ht0full : t0.full_table_name = td.full_name := by
        have := List.find?_some hf
        simpa using this
      have htne : t ≠ t0 := by
        intro hEq
        rw [hEq] at hne
        exact hne ht0full
      have htid : t.tid ≠ t0.tid := by
        intro hEq
        exact htne (List.inj_on_of_nodup_map hnodupTid ht ht0mem hEq)
      have hneid : c.table_id ≠ (updateTableRow env td t0).tid := by
        rw [hid, tid_updateTableRow]
        exact htid
      have := sync_table_columns_mem_other _ _ _ _ _ _ hc2 c hc hneid
      exact this

/-- A successful `sync_table` leaves a row for the synced name in
`completed` state, stamped with the sweep clock. -/
theorem sync_table_completed (env : Env) (u : Nat) (td : TableData) (s : Store)
    (s' : Store) (r : TableSyncStats)
    (h : sync_table env u td s = .ok (s', r)) :
    ∃ t' ∈ s'.tables, t'.full_table_name = td.full_name
      ∧ t'.analysis_status = "completed"
      ∧ t'.last_analyzed = some env.now := by
  simp only [sync_table] at h
  split at h
  case _ hf =>
    split at h
    · simp at h
    case _ s2 cr up hc2 =>
      simp only [Except.ok.injEq, Prod.mk.injEq] at h
      obtain ⟨h1, -⟩ := h
      subst h1
      have htab := (sync_table_columns_tables _ _ _ _ _ _ hc2).1
      refine ⟨completeRow env (newTableRow env u s td), ?_, rfl, rfl, rfl⟩
      simp only [completeTable]
      rw [htab]
      refine mem_map_image _ _ (newTableRow env u s td) _ ?_ ?_
      · dsimp only
        exact List.mem_append.mpr (Or.inr (List.mem_singleton.mpr rfl))
      · rw [if_pos]
        rw [show (newTableRow env u s td).full_table_name = td.full_name from rfl]
        exact beq_self_eq_true _
  case _ t0 hf =>
    split at h
    · simp at h
    case _ s2 cr up hc2 =>
      simp only [Except.ok.injEq, Prod.mk.injEq] at h
      obtain ⟨h1, -⟩ := h
      subst h1
      have ht0full : t0.full_table_name = td.full_name := by
        have := List.find?_some hf
        simpa using this
      have htab := (sync_table_columns_tables _ _ _ _ _ _ hc2).1
      refine ⟨completeRow env (updateTableRow env td t0), ?_, ?_, rfl, rfl⟩
      · simp only [completeTable]
        rw [htab]
        dsimp only
        have ht1 : updateTableRow env td t0 ∈ s.tables.map (fun x =>
            if x.full_table_name == td.full_name then updateTableRow env td x else x) := by
          refine mem_map_image _ _ _ _ (List.mem_of_find?_eq_some hf) ?_
          rw [if_pos]
          rw [ht0full]
          exact beq_self_eq_true _
        refine mem_map_image _ _ _ _ ht1 ?_
        rw [if_pos]
        rw [fullname_updateTableRow, ht0full]
        exact beq_self_eq_true _
      · rw [fullname_completeRow, fullname_updateTableRow]
        exact ht0full

/-- When the synced name already has a row, `sync_table` transforms exactly
that row: externally-sourced fields re-applied, then completion stamped. -/
theorem sync_table_find?_update (env : Env) (u : Nat) (td : TableData) (s : Store)
    (s' : Store) (r : TableSyncStats) (t0 : SourceTableRow)
    (hf : s.tables.find? (fun t => t.full_table_name == td.full_name) = some t0)
    (h : sync_table env u td s = .ok (s', r)) :
    s'.tables.find? (fun t => t.full_table_name == td.full_name)
      = some (completeRow env (updateTableRow env td t0))
      ∧ r.created = false := by
  simp only [sync_table] at h
  rw [hf] at h
  dsimp only at h
  split at h
  · exact absurd h (by simp)
  case _ s2 cr up hc2 =>
    simp only [Except.ok.injEq, Prod.mk.injEq] at h
    obtain ⟨h1, h2⟩ := h
    subst h1; subst h2
    refine ⟨?_, rfl⟩
    have htab := (sync_table_columns_tables _ _ _ _ _ _ hc2).1
    simp only [completeTable]
    rw [htab]
    dsimp only
    rw [find?_map_fullpres]
    · rw [find?_map_fullpres]
      · rw [hf]
        have ht0full : (t0.full_table_name == td.full_name) = true := by
          simpa using List.find?_some hf
        dsimp only [Option.map]
        rw [if_pos ht0full]
        rw [if_pos (by rw [fullname_updateTableRow]; exact ht0full)]
      · intro t; split <;> rfl
    · intro t; split <;> rfl

theorem rowFq_updateTableRow (env : Env) (td : TableData) (t : SourceTableRow) :
    rowFq (updateTableRow env td t) = rowFq t := rfl

theorem rowFq_completeRow (env : Env) (t : SourceTableRow) :
    rowFq (completeRow env t) = rowFq t := rfl

theorem rowFq_newTableRow (env : Env) (u : Nat) (s : Store) (td : TableData) :
    rowFq (newTableRow env u s td) = tdFq td := rfl

theorem errOf_syncStep (env : Env) (row : SourceTableRow) (st : Store)
    (fqn : String) (created : Bool) :
    errOf (match sync_table_columns env row st with
           | .error e => .error e
           | .ok (s2, cr, up) =>
             (.ok (completeTable env fqn s2,
               { created := created, columns_created := cr, columns_updated := up })
               : Except String (Store × TableSyncStats)))
      = syncErrorOf env (rowFq row) := by
  rw [← sync_table_columns_err env row st]
  cases h : sync_table_columns env row st with
  | error e => rfl
  | ok p =>
    obtain ⟨s2, cr, up⟩ := p
    rfl

/-- What `sync_table` raises, as a function of the environment alone: the
column listing's failure or the first failing column save for the synced
fully-qualified name. -/
theorem sync_table_err (env : Env) (u : Nat) (td : TableData) (s : Store)
    (hcons : Cons s) (htd : tdFq td = td.full_name) :
    errOf (sync_table env u td s) = syncErrorOf env td.full_name := by
  simp only [sync_table]
  cases hf : s.tables.find? (fun t => t.full_table_name == td.full_name) with
  | none =>
    have hrow : rowFq (newTableRow env u s td) = td.full_name := htd
    rw [← hrow]
    exact errOf_syncStep env _ _ _ true
  | some t0 =>
    have ht0full : t0.full_table_name = td.full_name := by
      simpa using List.find?_some hf
    have hrow : rowFq (updateTableRow env td t0) = td.full_name := by
      rw [rowFq_updateTableRow]
      rw [hcons t0 (List.mem_of_find?_eq_some hf)]
      exact ht0full
    rw [← hrow]
    exact errOf_syncStep env _ _ _ false

theorem map_tid_keep (l : List SourceTableRow)
    (f : SourceTableRow → SourceTableRow)
    (hf : ∀ t, (f t).tid = t.tid) :
    (l.map f).map (fun t => t.tid) = l.map (fun t => t.tid) := by
  rw [List.map_map]
  exact List.map_congr_left (fun t _ => hf t)

/-- `sync_table` preserves store well-formedness. -/
theorem sync_table_wf (env : Env) (u : Nat) (td : TableData) (s : Store)
    (s' : Store) (r : TableSyncStats)
    (h : sync_table env u td s = .ok (s', r)) (hwf : s.WF) : s'.WF := by
  obtain ⟨hnames, htids, hcols, htb, hcb⟩ := hwf
  simp only [sync_table] at h
  split at h
  case _ hf =>
    split at h
    · exact absurd h (by simp)
    case _ s2 cr up hc2 =>
      simp only [Except.ok.injEq, Prod.mk.injEq] at h
      obtain ⟨h1, -⟩ := h
      subst h1
      have htab := (sync_table_columns_tables _ _ _ _ _ _ hc2).1
      have hntid := (sync_table_columns_tables _ _ _ _ _ _ hc2).2
      have hcwf := sync_table_columns_wf _ _ _ _ _ _ hc2 hcols hcb
      have hnotin : td.full_name ∉ s.tables.map (fun t => t.full_table_name) := by
        intro hmem
        rcases List.mem_map.mp hmem with ⟨t1, ht1, hEq⟩
        have := List.find?_eq_none.mp hf t1 ht1
        simp [hEq] at this
      refine ⟨?_, ?_, ?_, ?_, ?_⟩
      · simp only [completeTable]
        rw [map_fullname_keep _ _ (fun t => by split <;> rfl)]
        rw [htab]
        dsimp only
        rw [List.map_append]
        rw [List.nodup_append]
        refine ⟨hnames, by simp, ?_⟩
        intro k hk
        simp only [List.map_cons, List.map_nil, List.mem_singleton]
        intro hEq
        subst hEq
        exact hnotin (by simpa using hk)
      · simp only [completeTable]
        rw [map_tid_keep _ _ (fun t => by split <;> rfl)]
        rw [htab]
        dsimp only
        rw [List.map_append]
        rw [List.nodup_append]
        refine ⟨htids, by simp, ?_⟩
        intro k hk
        simp only [List.map_cons, List.map_nil, List.mem_singleton]
        intro hEq
        subst hEq
        rcases List.mem_map.mp hk with ⟨t1, ht1, hEq2⟩
        have := htb t1 ht1
        rw [hEq2] at this
        rw [show (newTableRow env u s td).tid = s.nextTableId from rfl] at this
        omega
      · exact hcwf.1
      · intro t ht
        simp only [completeTable] at ht
        rcases List.mem_map.mp ht with ⟨t1, ht1, hEq⟩
        rw [htab] at ht1
        have h3 : (completeTable env td.full_name s2).nextTableId = s.nextTableId + 1 := hntid
        rcases List.mem_append.mp ht1 with ht1 | ht1
        · have := htb t1 ht1
          have htid1 : t.tid = t1.tid := by rw [← hEq]; split <;> rfl
          rw [h3]
          omega
        · simp only [List.mem_singleton] at ht1
          subst ht1
          have htid1 : t.tid = s.nextTableId := by rw [← hEq]; split <;> rfl
          rw [htid1, h3]
          exact Nat.lt_succ_self _
      · intro c hcmem
        exact hcwf.2.1 c hcmem
  case _ t0 hf =>
    split at h
    · exact absurd h (by simp)
    case _ s2 cr up hc2 =>
      simp only [Except.ok.injEq, Prod.mk.injEq] at h
      obtain ⟨h1, -⟩ := h
      subst h1
      have htab := (sync_table_columns_tables _ _ _ _ _ _ hc2).1
      have hntid := (sync_table_columns_tables _ _ _ _ _ _ hc2).2
      have hcwf := sync_table_columns_wf _ _ _ _ _ _ hc2 hcols hcb
      refine ⟨?_, ?_, ?_, ?_, ?_⟩
      · simp only [completeTable]
        rw [map_fullname_keep _ _ (fun t => by split <;> rfl)]
        rw [htab]
        dsimp only
        rw [map_fullname_keep _ _ (fun t => by split <;> rfl)]
        exact hnames
      · simp only [completeTable]
        rw [map_tid_keep _ _ (fun t => by split <;> rfl)]
        rw [htab]
        dsimp only
        rw [map_tid_keep _ _ (fun t => by split <;> rfl)]
        exact htids
      · exact hcwf.1
      · intro t ht
        simp only [completeTable] at ht
        rcases List.mem_map.mp ht with ⟨t1, ht1, hEq⟩
        rw [htab] at ht1
        dsimp only at ht1
        rcases List.mem_map.mp ht1 with ⟨t2, ht2, hEq2⟩
        have := htb t2 ht2
        have k1 : ∀ (P : Prop) [Decidable P] (x : SourceTableRow),
            (if P then completeRow env x else x).tid = x.tid := by
          intro P _ x; split <;> rfl
        have k2 : ∀ (P : Prop) [Decidable P] (x : SourceTableRow),
            (if P then updateTableRow env td x else x).tid = x.tid := by
          intro P _ x; split <;> rfl
        have htid2 : t.tid = t2.tid := by
          rw [← hEq, k1, ← hEq2, k2]
        have h3 : (completeTable env td.full_name s2).nextTableId = s.nextTableId := hntid
        rw [h3]
        omega
      · intro c hcmem
        exact hcwf.2.1 c hcmem

/-- `sync_table` preserves name-consistency of the stored rows. -/
theorem sync_table_cons (env : Env) (u : Nat) (td : TableData) (s : Store)
    (s' : Store) (r : TableSyncStats)
    (h : sync_table env u td s = .ok (s', r))
    (hcons : Cons s) (htd : tdFq td = td.full_name) : Cons s' := by
  simp only [sync_table] at h
  have kfix : ∀ (g : SourceTableRow → SourceTableRow),
      (∀ x, rowFq (g x) = rowFq x ∧ (g x).full_table_name = x.full_table_name) →
      ∀ (l : List SourceTableRow), (∀ x ∈ l, rowFq x = x.full_table_name) →
      ∀ x ∈ l.map g, rowFq x = x.full_table_name := by
    intro g hg l hl x hx
    rcases List.mem_map.mp hx with ⟨x0, hx0, hEq⟩
    subst hEq
    rw [(hg x0).1, (hg x0).2]
    exact hl x0 hx0
  split at h
  case _ hf =>
    split at h
    · exact absurd h (by simp)
    case _ s2 cr up hc2 =>
      simp only [Except.ok.injEq, Prod.mk.injEq] at h
      obtain ⟨h1, -⟩ := h
      subst h1
      have htab := (sync_table_columns_tables _ _ _ _ _ _ hc2).1
      intro t ht
      simp only [completeTable] at ht
      rw [htab] at ht
      refine kfix _ (fun x => ⟨by split <;> rfl, by split <;> rfl⟩) _ ?_ t ht
      intro x hx
      rcases List.mem_append.mp hx with hx | hx
      · exact hcons x hx
      · simp only [List.mem_singleton] at hx
        subst hx
        exact htd
  case _ t0 hf =>
    split at h
    · exact absurd h (by simp)
    case _ s2 cr up hc2 =>
      simp only [Except.ok.injEq, Prod.mk.injEq] at h
      obtain ⟨h1, -⟩ := h
      subst h1
      have htab := (sync_table_columns_tables _ _ _ _ _ _ hc2).1
      intro t ht
      simp only [completeTable] at ht
      rw [htab] at ht
      dsimp only at ht
      refine kfix _ (fun x => ⟨by split <;> rfl, by split <;> rfl⟩) _ ?_ t ht
      refine kfix _ (fun x => ⟨by split <;> rfl, by split <;> rfl⟩) _ ?_
      exact hcons

/-! ### Presence predicates and their evolution -/

theorem hasTable_names (s : Store) (fqn : String) :
    hasTable s fqn
      = (s.tables.map (fun t => t.full_table_name)).any (fun x => x == fqn) := by
  rw [hasTable, find?_isSome_eq_any, any_map_comp]

theorem hasTable_of_mem (s : Store) (t : SourceTableRow) (ht : t ∈ s.tables)
    (fqn : String) (hEq : t.full_table_name = fqn) : hasTable s fqn = true := by
  rw [hasTable_names, List.any_eq_true]
  exact ⟨fqn, List.mem_map.mpr ⟨t, ht, hEq⟩, beq_self_eq_true _⟩

theorem sync_table_hasTable_mono (env : Env) (u : Nat) (td : TableData) (s : Store)
    (s' : Store) (r : TableSyncStats)
    (h : sync_table env u td s = .ok (s', r))
    (fqn : String) (hh : hasTable s fqn = true) : hasTable s' fqn = true := by
  have hn := sync_table_names _ _ _ _ _ _ h
  rw [hasTable_names] at hh ⊢
  cases hcr : r.created with
  | true =>
    rw [hn.1 hcr, List.any_append, hh]
    rfl
  | false =>
    rw [hn.2 hcr]
    exact hh

/-- After a successful `sync_table`, the synced name has a row. -/
theorem sync_table_hasTable (env : Env) (u : Nat) (td : TableData) (s : Store)
    (s' : Store) (r : TableSyncStats)
    (h : sync_table env u td s = .ok (s', r)) :
    hasTable s' td.full_name = true := by
  rcases sync_table_completed _ _ _ _ _ _ h with ⟨t', ht', hfull, -, -⟩
  exact hasTable_of_mem _ _ ht' _ hfull

/-- A column is present for a table identified by its fully-qualified
name. -/
def hasColByName (s : Store) (fqn n : String) : Bool :=
  match s.tables.find? (fun t => t.full_table_name == fqn) with
  | some t => hasColKey s t.tid n
  | none => false

/-- The row `sync_table` leaves for the synced name after a create. -/
theorem sync_table_find?_create (env : Env) (u : Nat) (td : TableData) (s : Store)
    (s' : Store) (r : TableSyncStats)
    (hf : s.tables.find? (fun t => t.full_table_name == td.full_name) = none)
    (h : sync_table env u td s = .ok (s', r)) :
    s'.tables.find? (fun t => t.full_table_name == td.full_name)
      = some (completeRow env (newTableRow env u s td))
      ∧ r.created = true := by
  simp only [sync_table] at h
  rw [hf] at h
  dsimp only at h
  split at h
  · exact absurd h (by simp)
  case _ s2 cr up hc2 =>
    simp only [Except.ok.injEq, Prod.mk.injEq] at h
    obtain ⟨h1, h2⟩ := h
    subst h1; subst h2
    refine ⟨?_, rfl⟩
    have htab := (sync_table_columns_tables _ _ _ _ _ _ hc2).1
    simp only [completeTable]
    rw [htab]
    dsimp only
    rw [find?_map_fullpres _ _ (fun t => by split <;> rfl)]
    rw [List.find?_append, hf]
    rw [Option.none_or]
    have hnew : ((newTableRow env u s td).full_table_name == td.full_name) = true := by
      rw [show (newTableRow env u s td).full_table_name = td.full_name from rfl]
      exact beq_self_eq_true _
    rw [List.find?_cons, hnew]
    dsimp only [Option.map]
    rw [if_pos hnew]

/-- Presence of a column (by table name) is monotone under `sync_table`. -/
theorem sync_table_hasColByName_mono (env : Env) (u : Nat) (td : TableData)
    (s : Store) (s' : Store) (r : TableSyncStats)
    (h : sync_table env u td s = .ok (s', r))
    (fqn n : String) (hh : hasColByName s fqn n = true) :
    hasColByName s' fqn n = true := by
  simp only [hasColByName] at hh
  cases hft : s.tables.find? (fun t => t.full_table_name == fqn) with
  | none => rw [hft] at hh; simp at hh
  | some tf =>
    rw [hft] at hh
    simp only [sync_table] at h
    split at h
    case _ hf =>
      split at h
      · exact absurd h (by simp)
      case _ s2 cr up hc2 =>
        simp only [Except.ok.injEq, Prod.mk.injEq] at h
        obtain ⟨h1, -⟩ := h
        subst h1
        have htab := (sync_table_columns_tables _ _ _ _ _ _ hc2).1
        have hfind' : (completeTable env td.full_name s2).tables.find?
            (fun t => t.full_table_name == fqn)
            = some (if (tf.full_table_name == td.full_name) = true
                then completeRow env tf else tf) := by
          simp only [completeTable]
          rw [find?_map_fullpres _ _ (fun t => by split <;> rfl)]
          rw [htab]
          dsimp only
          rw [List.find?_append, hft]
          rfl
        simp only [hasColByName, hfind']
        have htid : (if (tf.full_table_name == td.full_name) = true
            then completeRow env tf else tf).tid = tf.tid := by
          split <;> rfl
        rw [htid]
        exact sync_table_columns_key_mono _ _ _ _ _ _ hc2 tf.tid n hh
    case _ t0 hf =>
      split at h
      · exact absurd h (by simp)
      case _ s2 cr up hc2 =>
        simp only [Except.ok.injEq, Prod.mk.injEq] at h
        obtain ⟨h1, -⟩ := h
        subst h1
        have htab := (sync_table_columns_tables _ _ _ _ _ _ hc2).1
        have hfind' : (completeTable env td.full_name s2).tables.find?
            (fun t => t.full_table_name == fqn)
            = some (
              (fun x => if (x.full_table_name == td.full_name) = true
                  then completeRow env x else x)
              ((fun x => if (x.full_table_name == td.full_name) = true
                  then updateTableRow env td x else x) tf)) := by
          simp only [completeTable]
          rw [find?_map_fullpres _ _ (fun t => by split <;> rfl)]
          rw [htab]
          dsimp only
          rw [find?_map_fullpres _ _ (fun t => by split <;> rfl)]
          rw [hft]
          rfl
        simp only [hasColByName, hfind']
        have htid : ((fun x : SourceTableRow =>
              if (x.full_table_name == td.full_name) = true
                then completeRow env x else x)
            ((fun x : SourceTableRow =>
              if (x.full_table_name == td.full_name) = true
                then updateTableRow env td x else x) tf)).tid = tf.tid := by
          dsimp only
          split <;> (try split) <;> rfl
        rw [htid]
        exact sync_table_columns_key_mono _ _ _ _ _ _ hc2 tf.tid n hh

/-- After a successful `sync_table`, every discovered column of the synced
table is present in the store. -/
theorem sync_table_synced_cols (env : Env) (u : Nat) (td : TableData) (s : Store)
    (s' : Store) (r : TableSyncStats)
    (h : sync_table env u td s = .ok (s', r))
    (hcons : Cons s) (htd : tdFq td = td.full_name) :
    ∀ cd ∈ tdCols env td.full_name,
      hasColByName s' td.full_name cd.name = true := by
  intro cd hcd
  simp only [hasColByName]
  cases hf : s.tables.find? (fun t => t.full_table_name == td.full_name) with
  | none =>
    obtain ⟨hfind', -⟩ := sync_table_find?_create env u td s s' r hf h
    rw [hfind']
    simp only [sync_table] at h
    rw [hf] at h
    dsimp only at h
    split at h
    · exact absurd h (by simp)
    case _ s2 cr up hc2 =>
      simp only [Except.ok.injEq, Prod.mk.injEq] at h
      obtain ⟨h1, -⟩ := h
      subst h1
      have hkeys := sync_table_columns_keys_present _ _ _ _ _ _ hc2
      have hrow : rowFq (newTableRow env u s td) = td.full_name := htd
      rw [hrow] at hkeys
      exact hkeys cd hcd
  | some t0 =>
    obtain ⟨hfind', -⟩ := sync_table_find?_update env u td s s' r t0 hf h
    rw [hfind']
    simp only [sync_table] at h
    rw [hf] at h
    dsimp only at h
    split at h
    · exact absurd h (by simp)
    case _ s2 cr up hc2 =>
      simp only [Except.ok.injEq, Prod.mk.injEq] at h
      obtain ⟨h1, -⟩ := h
      subst h1
      have hkeys := sync_table_columns_keys_present _ _ _ _ _ _ hc2
      have hrow : rowFq (updateTableRow env td t0) = td.full_name := by
        rw [rowFq_updateTableRow, hcons t0 (List.mem_of_find?_eq_some hf)]
        simpa using List.find?_some hf
      rw [hrow] at hkeys
      exact hkeys cd hcd

/-- Under a healthy environment `sync_table` never raises. -/
theorem sync_table_ok_of_envok (env : Env) (u : Nat) (td : TableData) (s : Store)
    (hcons : Cons s) (htd : tdFq td = td.full_name)
    (hsave : ∀ fq n, env.columnSaveError fq n = none)
    (hraw : ∀ fq, errOf (env.rawColumnsOf fq) = none) :
    ∃ p, sync_table env u td s = .ok p := by
  rw [← errOf_eq_none, sync_table_err env u td s hcons htd, syncErrorOf]
  rcases (errOf_eq_none _).mp (hraw td.full_name) with ⟨raws, hr⟩
  rw [hr, List.findSome?_eq_none_iff]
  intro cd _
  exact hsave _ _

/-- Re-syncing an already-synced table: the update path is taken for the
table and for every column, no rows are added. -/
theorem sync_table_second (env : Env) (u : Nat) (td : TableData) (s : Store)
    (hcons : Cons s) (_htd : tdFq td = td.full_name)
    (hsave : ∀ fq n, env.columnSaveError fq n = none)
    (hraw : ∀ fq, errOf (env.rawColumnsOf fq) = none)
    (hhas : hasTable s td.full_name = true)
    (hkeys : ∀ cd ∈ tdCols env td.full_name,
      hasColByName s td.full_name cd.name = true) :
    ∃ s', sync_table env u td s = .ok (s',
        { created := false, columns_created := 0,
          columns_updated := (tdCols env td.full_name).length })
      ∧ s'.tables.length = s.tables.length
      ∧ s'.columns.length = s.columns.length := by
  rw [hasTable] at hhas
  rcases Option.isSome_iff_exists.mp hhas with ⟨t0, hf0⟩
  have hrow : rowFq (updateTableRow env td t0) = td.full_name := by
    rw [rowFq_updateTableRow, hcons t0 (List.mem_of_find?_eq_some hf0)]
    simpa using List.find?_some hf0
  have hkeys' : ∀ cd ∈ tdCols env (rowFq (updateTableRow env td t0)),
      hasColKey { s with tables := s.tables.map (fun t =>
        if t.full_table_name == td.full_name then updateTableRow env td t else t) }
        (updateTableRow env td t0).tid cd.name = true := by
    rw [hrow]
    intro cd hcd
    have := hkeys cd hcd
    simp only [hasColByName, hf0] at this
    exact this
  rcases sync_table_columns_all_update env (updateTableRow env td t0)
      { s with tables := s.tables.map (fun t =>
        if t.full_table_name == td.full_name then updateTableRow env td t else t) }
      (fun n => hsave _ n) (hraw _) hkeys' with
    ⟨s2, hstc, hkeysEq, hlen, hnext, htabs, hntid⟩
  rw [hrow] at hstc
  refine ⟨completeTable env td.full_name s2, ?_, ?_, ?_⟩
  · simp only [sync_table]
    rw [hf0]
    dsimp only
    rw [hstc]
  · simp only [completeTable]
    rw [List.length_map, htabs]
    dsimp only
    rw [List.length_map]
  · exact hlen

/-- All stored columns have both key flags clear. -/
def flagsClear (s : Store) : Bool :=
  s.columns.all (fun c => !c.is_primary_key && !c.is_foreign_key)

/-- `sync_table` preserves clear key flags. -/
theorem sync_table_flags (env : Env) (u : Nat) (td : TableData) (s : Store)
    (s' : Store) (r : TableSyncStats)
    (h : sync_table env u td s = .ok (s', r))
    (hs : flagsClear s = true) : flagsClear s' = true := by
  have hs' : ∀ c ∈ s.columns, c.is_primary_key = false ∧ c.is_foreign_key = false := by
    intro c hc
    have := List.all_eq_true.mp hs c hc
    constructor
    · cases hpk : c.is_primary_key
      · rfl
      · rw [hpk] at this; simp at this
    · cases hfk : c.is_foreign_key
      · rfl
      · rw [hfk] at this; simp at this
  have goal : ∀ c ∈ s'.columns, c.is_primary_key = false ∧ c.is_foreign_key = false := by
    simp only [sync_table] at h
    split at h
    case _ hf =>
      split at h
      · exact absurd h (by simp)
      case _ s2 cr up hc2 =>
        simp only [Except.ok.injEq, Prod.mk.injEq] at h
        obtain ⟨h1, -⟩ := h
        subst h1
        have h5 := sync_table_columns_flags _ _ _ _ _ _ hc2 hs'
        exact h5
    case _ t0 hf =>
      split at h
      · exact absurd h (by simp)
      case _ s2 cr up hc2 =>
        simp only [Except.ok.injEq, Prod.mk.injEq] at h
        obtain ⟨h1, -⟩ := h
        subst h1
        have h5 := sync_table_columns_flags _ _ _ _ _ _ hc2 hs'
        exact h5
  rw [flagsClear, List.all_eq_true]
  intro c hc
  have := goal c hc
  rw [this.1, this.2]
  rfl

/-! ### Concrete fixtures used by witnesses and counterexamples -/

/-- Empty store. -/
def s0W : Store := { tables := [], columns := [], nextTableId := 0, nextColumnId := 0 }

def rawXW : RawColumn :=
  { name := "x", type_name := "bigint", type_text := some "bigint",
    nullable := true, comment := some "cx" }

def rawYW : RawColumn :=
  { name := "y", type_name := "string", type_text := some "string",
    nullable := false, comment := none }

def tdAW : TableData :=
  { name := "a", catalog_name := "c", schema_name := "s", full_name := "c.s.a"
    table_type := some "TABLE", data_source_format := some "DELTA"
    storage_location := some "loc", owner := some "own"
    comment := some "customer data", row_count := some 10, size_bytes := some 99 }

def tdBW : TableData :=
  { name := "b", catalog_name := "c", schema_name := "s", full_name := "c.s.b"
    table_type := some "VIEW", data_source_format := none
    storage_location := none, owner := some "own2", comment := none
    row_count := some 5, size_bytes := some 7 }

def tdCW : TableData :=
  { name := "cc", catalog_name := "c", schema_name := "s", full_name := "c.s.cc"
    table_type := some "TABLE", data_source_format := some "PARQUET"
    storage_location := some "loc2", owner := none, comment := some "orders"
    row_count := some 3, size_bytes := some 4 }

/-- Healthy environment over one catalog/schema with three tables. -/
def envW : Env :=
  { now := 5
    catalogs := .ok ["c"]
    schemasOf := fun _ => .ok ["s"]
    tablesOf := fun _ _ => .ok [tdAW, tdBW, tdCW]
    rawColumnsOf := fun fq =>
      if fq == "c.s.a" then .ok [rawXW, rawYW]
      else if fq == "c.s.b" then .ok [rawYW]
      else .ok [rawXW]
    probesOf := fun _ _ =>
      { null_count := .ok 2, distinct_count := .ok 3,
        min_max := .ok (some "1", some "9"), samples := .ok ["1", "2"],
        avg_length := .ok 4 }
    columnSaveError := fun _ _ => none }

/-- Same environment, but persisting column `y` of table `c.s.b` fails. -/
def envFW : Env :=
  { envW with columnSaveError := fun fq n =>
      if fq == "c.s.b" && n == "y" then some "boom" else none }

/-- A pre-existing row for `c.s.b` (as a previous sweep would have left it),
with one live column `y` and one vanished column `gone`. -/
def tB0W : SourceTableRow :=
  { tid := 0, catalog_name := "c", schema_name := "s", table_name := "b"
    full_table_name := "c.s.b", table_type := "TABLE", table_format := "DELTA"
    location := "oldloc", owner := "oldown", source_owners := some "alice,bob"
    row_count := 4, size_bytes := 6, discovered_by := 9, discovered_at := 1
    last_updated := 2, last_analyzed := some 2, is_active := true
    analysis_status := "completed" }

def cYW : SourceColumnRow :=
  { cid := 0, table_id := 0, column_name := "y", column_position := 1
    data_type := "string", physical_data_type := some "string"
    is_nullable := false, is_primary_key := false, is_foreign_key := false
    null_count := 7, distinct_count := 5, min_value := some "0"
    max_value := some "8", avg_length := some 3, column_comment := some "old"
    business_description := some "keep me", sample_values := ["7"]
    discovered_at := 1, last_updated := 2 }

def cGoneW : SourceColumnRow :=
  { cYW with cid := 1, column_name := "gone", column_position := 2 }

def sPreW : Store :=
  { tables := [tB0W], columns := [cYW, cGoneW], nextTableId := 1, nextColumnId := 2 }

/-- Result-store extractor for witnesses (the error branch never fires
there). -/
def okStore (x : Except String (Store × TableSyncStats)) (d : Store) : Store :=
  match x with
  | .ok p => p.1
  | .error _ => d

def okStats (x : Except String (Store × TableSyncStats)) : TableSyncStats :=
  match x with
  | .ok p => p.2
  | .error _ => { created := false, columns_created := 0, columns_updated := 0 }

/-! ### C10 -/

/-- C10: discovery never asserts key flags — creation writes both flags as
`False`, the update path copies both flags from the stored row, and hence a
table sync keeps every stored column's flags `False` whenever they all were
`False` before. -/
theorem C10_flags_never_set :
    (∀ (env : Env) (s : Store) (tid : Nat) (cd : ColumnData),
      (newColumnRow env s tid cd).is_primary_key = false
        ∧ (newColumnRow env s tid cd).is_foreign_key = false)
    ∧ (∀ (env : Env) (cd : ColumnData) (c : SourceColumnRow),
      (updateColumnRow env cd c).is_primary_key = c.is_primary_key
        ∧ (updateColumnRow env cd c).is_foreign_key = c.is_foreign_key)
    ∧ (∀ (env : Env) (u : Nat) (td : TableData) (s s' : Store) (r : TableSyncStats),
      sync_table env u td s = .ok (s', r) →
      flagsClear s = true → flagsClear s' = true) := by
  refine ⟨fun env s tid cd => ⟨rfl, rfl⟩, fun env cd c => ⟨rfl, rfl⟩, ?_⟩
  intro env u td s s' r h hs
  exact sync_table_flags env u td s s' r h hs

/-- Witness for C10 at a concrete sync over a store with existing rows. -/
theorem C10_witness :
    flagsClear (okStore (sync_table envW 1 tdBW sPreW) s0W) = true :=
  C10_flags_never_set.2.2 envW 1 tdBW sPreW
    (okStore (sync_table envW 1 tdBW sPreW) s0W)
    (okStats (sync_table envW 1 tdBW sPreW))
    (by rfl) (by rfl)

/-! ### C3 -/

/-- C3: a stored column of the synced table whose name is absent from the
columns discovered this sync is never deleted: the store after the sync
still contains the row, with its `last_updated` refreshed to the sweep
clock and every other field (name, position, types, statistics, comments,
flags) bit-for-bit unchanged. -/
theorem C3_vanished_retained (env : Env) (u : Nat) (td : TableData) (s : Store)
    (s' : Store) (r : TableSyncStats)
    (h : sync_table env u td s = .ok (s', r))
    (t0 : SourceTableRow)
    (hf : s.tables.find? (fun t => t.full_table_name == td.full_name) = some t0)
    (c : SourceColumnRow) (hc : c ∈ s.columns) (hct : c.table_id = t0.tid)
    (hn : c.column_name ∉ (tdCols env (rowFq t0)).map (fun cd => cd.name)) :
    { c with last_updated := env.now } ∈ s'.columns := by
  simp only [sync_table] at h
  split at h
  case _ hfnone => rw [hf] at hfnone; cases hfnone
  case _ t1 hfsome =>
    rw [hf] at hfsome
    injection hfsome with hfsome
    subst hfsome
    split at h
    · exact absurd h (by simp)
    case _ s2 cr up hc2 =>
      simp only [Except.ok.injEq, Prod.mk.injEq] at h
      obtain ⟨h1, -⟩ := h
      subst h1
      have hvan := sync_table_columns_vanished env (updateTableRow env td t0)
          _ _ _ _ hc2 c hc (by rw [tid_updateTableRow]; exact hct)
          (by rw [rowFq_updateTableRow]; exact hn)
      exact hvan

/-- Witness for C3: the pre-existing column `gone` of `c.s.b` is not among
the discovered columns, and survives the sync with only its timestamp
refreshed. -/
theorem C3_witness :
    { cGoneW with last_updated := envW.now }
      ∈ (okStore (sync_table envW 1 tdBW sPreW) s0W).columns :=
  C3_vanished_retained envW 1 tdBW sPreW
    (okStore (sync_table envW 1 tdBW sPreW) s0W)
    (okStats (sync_table envW 1 tdBW sPreW))
    (by rfl) tB0W (by rfl) cGoneW (by decide) (by decide) (by decide)

/-! ### C2 -/

/-- Probes where the distinct-count query fails while every other probe
would succeed. -/
def pFailW : ColumnProbes :=
  { null_count := .ok 42, distinct_count := .error "timeout",
    min_max := .ok (some "1", some "9"), samples := .ok ["1"],
    avg_length := .ok 4 }

/-- The column dict built from those probes for a numeric column. -/
def cdFailW : ColumnData :=
  { name := "y", position := 1, type_name := "bigint",
    type_text := some "bigint", nullable := true, comment := some "cx",
    stats := get_column_statistics "bigint" pFailW }

/-- C2 counterexample: with the distinct-count probe failing and the
null/min/max probes succeeding, the persisted row does **not** carry the
newly computed null_count (42) — it is reset to 0; the previously stored
distinct_count (5) is **not** retained — it is reset to 0; and min_value is
**not** the newly probed value — the probe is never reached and the prior
value is kept. -/
theorem C2_counterexample :
    (updateColumnRow envW cdFailW cYW).null_count = 0
      ∧ (updateColumnRow envW cdFailW cYW).null_count ≠ 42
      ∧ (updateColumnRow envW cdFailW cYW).distinct_count = 0
      ∧ (updateColumnRow envW cdFailW cYW).distinct_count ≠ 5
      ∧ (updateColumnRow envW cdFailW cYW).min_value = cYW.min_value
      ∧ (updateColumnRow envW cdFailW cYW).min_value ≠ some "1" := by
  decide

/-- C2 (amended): when the distinct-count probe fails, the statistics
helper catches the failure and resets `null_count`, `distinct_count` and
`sample_values` to `0`, `0`, `[]`; the later probes (avg-length, min/max,
samples) are never attempted, so the persisted row gets `null_count = 0`,
`distinct_count = 0`, empty `sample_values`, and retains its previously
stored `min_value`, `max_value` and `avg_length`; and no statistic failure
raises an exception that aborts the table's column sync. -/
theorem C2_stats_degradation (ctype : String) (p : ColumnProbes)
    (hconn : p.connect = .ok ()) (nc : Int) (hnull : p.null_count = .ok nc)
    (e : String) (hdist : p.distinct_count = .error e) :
    get_column_statistics ctype p
      = { null_count := some 0, distinct_count := some 0,
          avg_length := none, min_value := none, max_value := none,
          sample_values := some [] }
    ∧ (∀ (env : Env) (cd : ColumnData) (c : SourceColumnRow),
        cd.stats = get_column_statistics ctype p →
        (updateColumnRow env cd c).null_count = 0
          ∧ (updateColumnRow env cd c).distinct_count = 0
          ∧ (updateColumnRow env cd c).min_value = c.min_value
          ∧ (updateColumnRow env cd c).max_value = c.max_value
          ∧ (updateColumnRow env cd c).avg_length = c.avg_length
          ∧ (updateColumnRow env cd c).sample_values = [])
    ∧ (∀ (env : Env) (t : SourceTableRow) (s : Store),
        (∀ n, env.columnSaveError (rowFq t) n = none) →
        errOf (env.rawColumnsOf (rowFq t)) = none →
        ∃ q, sync_table_columns env t s = .ok q) := by
  have hstats : get_column_statistics ctype p
      = { null_count := some 0, distinct_count := some 0,
          avg_length := none, min_value := none, max_value := none,
          sample_values := some [] } := by
    rw [get_column_statistics, hconn, hnull, hdist]
    rfl
  refine ⟨hstats, ?_, ?_⟩
  · intro env cd c hcd
    refine ⟨?_, ?_, ?_, ?_, ?_, ?_⟩ <;>
      simp [updateColumnRow, hcd, hstats]
  · intro env t s hsave hraw
    exact sync_table_columns_ok env t s hsave hraw

/-- Witness for C2's amended statement at the concrete probes. -/
theorem C2_witness :
    (updateColumnRow envW cdFailW cYW).distinct_count = 0
      ∧ (updateColumnRow envW cdFailW cYW).min_value = cYW.min_value :=
  ⟨((C2_stats_degradation "bigint" pFailW rfl 42 rfl "timeout" rfl).2.1
      envW cdFailW cYW rfl).2.1,
   ((C2_stats_degradation "bigint" pFailW rfl 42 rfl "timeout" rfl).2.1
      envW cdFailW cYW rfl).2.2.1⟩

/-! ### C5 -/

/-- Number of stored table rows carrying a given fully-qualified name. -/
def countTables (s : Store) (fqn : String) : Nat :=
  (s.tables.filter (fun t => t.full_table_name == fqn)).length

theorem countTables_names (s : Store) (fqn : String) :
    countTables s fqn
      = ((s.tables.map (fun t => t.full_table_name)).filter
          (fun x => x == fqn)).length := by
  rw [countTables, List.filter_map, List.length_map]
  rfl

/-- C5: two discovery events with the same fully-qualified name converge to
exactly one `SourceTable` row — the first sync creates it (when absent),
the second takes the update path, leaves exactly one row with that name,
and preserves the row's identity (its surrogate id). -/
theorem C5_natural_key_unique (env env' : Env) (u u' : Nat)
    (td td' : TableData) (s s1 s2 : Store) (r1 r2 : TableSyncStats)
    (hname : td'.full_name = td.full_name)
    (h0 : hasTable s td.full_name = false)
    (h1 : sync_table env u td s = .ok (s1, r1))
    (h2 : sync_table env' u' td' s1 = .ok (s2, r2)) :
    r1.created = true
      ∧ r2.created = false
      ∧ countTables s2 td.full_name = 1
      ∧ (s2.tables.find? (fun t => t.full_table_name == td.full_name)).map
          (fun t => t.tid)
        = (s1.tables.find? (fun t => t.full_table_name == td.full_name)).map
          (fun t => t.tid) := by
  have hfnone : s.tables.find? (fun t => t.full_table_name == td.full_name) = none := by
    rw [hasTable] at h0
    cases hf : s.tables.find? (fun t => t.full_table_name == td.full_name) with
    | none => rfl
    | some t => rw [hf] at h0; cases h0
  obtain ⟨-, hr1⟩ := sync_table_find?_create env u td s s1 r1 hfnone h1
  have hhas1 : hasTable s1 td.full_name = true := sync_table_hasTable _ _ _ _ _ _ h1
  have hf1 : ∃ t1, s1.tables.find? (fun t => t.full_table_name == td.full_name)
      = some t1 := by
    rw [hasTable] at hhas1
    exact Option.isSome_iff_exists.mp hhas1
  rcases hf1 with ⟨t1, hf1⟩
  have hf1' : s1.tables.find? (fun t => t.full_table_name == td'.full_name)
      = some t1 := by rw [hname]; exact hf1
  obtain ⟨hfind2, hr2⟩ := sync_table_find?_update env' u' td' s1 s2 r2 t1 hf1' h2
  have hcount0 : countTables s td.full_name = 0 := by
    rw [countTables_names]
    rw [hasTable_names] at h0
    rw [List.length_eq_zero]
    rw [List.filter_eq_nil_iff]
    intro a ha
    have := List.any_eq_false.mp h0 a ha
    simpa using this
  have hcount1 : countTables s1 td.full_name = 1 := by
    rw [countTables_names]
    rw [(sync_table_names _ _ _ _ _ _ h1).1 hr1]
    rw [List.filter_append]
    rw [List.length_append]
    have hz : ((s.tables.map (fun t => t.full_table_name)).filter
        (fun x => x == td.full_name)).length = 0 := by
      rw [← countTables_names]
      exact hcount0
    rw [hz]
    simp
  refine ⟨hr1, hr2, ?_, ?_⟩
  · rw [countTables_names]
    rw [(sync_table_names _ _ _ _ _ _ h2).2 hr2]
    rw [← countTables_names]
    exact hcount1
  · rw [hf1]
    rw [hname] at hfind2
    rw [hfind2]
    rfl

/-- Witness for C5: syncing `c.s.a` twice into the empty store. -/
theorem C5_witness :
    (okStats (sync_table envW 1 tdAW s0W)).created = true
      ∧ (okStats (sync_table envW 2 tdAW
          (okStore (sync_table envW 1 tdAW s0W) s0W))).created = false
      ∧ countTables (okStore (sync_table envW 2 tdAW
          (okStore (sync_table envW 1 tdAW s0W) s0W)) s0W) tdAW.full_name = 1 :=
  have h := C5_natural_key_unique envW envW 1 2 tdAW tdAW s0W
    (okStore (sync_table envW 1 tdAW s0W) s0W)
    (okStore (sync_table envW 2 tdAW (okStore (sync_table envW 1 tdAW s0W) s0W)) s0W)
    (okStats (sync_table envW 1 tdAW s0W))
    (okStats (sync_table envW 2 tdAW (okStore (sync_table envW 1 tdAW s0W) s0W)))
    rfl (by decide) (by rfl) (by rfl)
  ⟨h.1, h.2.1, h.2.2.1⟩

/-! ### C8 -/

/-- C8: when `sync_table` updates an existing row, the row for the synced
name afterwards is exactly the old row with the externally-sourced fields
(`table_type`, `table_format`, `location`, `owner`, `row_count`,
`size_bytes`) overwritten from the discovered record and the
completion/timestamp fields stamped — in particular `source_owners`,
`is_active`, `discovered_by` and `discovered_at` keep their prior values. -/
theorem C8_update_frame (env : Env) (u : Nat) (td : TableData) (s : Store)
    (s' : Store) (r : TableSyncStats) (t0 : SourceTableRow)
    (hf : s.tables.find? (fun t => t.full_table_name == td.full_name) = some t0)
    (h : sync_table env u td s = .ok (s', r))
    (tt fmt loc own : String) (rc sb : Int)
    (hty : td.table_type = some tt) (hfmt : td.data_source_format = some fmt)
    (hloc : td.storage_location = some loc) (hown : td.owner = some own)
    (hrc : td.row_count = some rc) (hsb : td.size_bytes = some sb) :
    ∃ t', s'.tables.find? (fun t => t.full_table_name == td.full_name) = some t'
      ∧ t' = { t0 with table_type := tt, table_format := fmt, location := loc,
                       owner := own, row_count := rc, size_bytes := sb,
                       last_updated := env.now,
                       analysis_status := "completed",
                       last_analyzed := some env.now }
      ∧ t'.source_owners = t0.source_owners
      ∧ t'.is_active = t0.is_active
      ∧ t'.discovered_by = t0.discovered_by
      ∧ t'.discovered_at = t0.discovered_at := by
  obtain ⟨hfind, -⟩ := sync_table_find?_update env u td s s' r t0 hf h
  refine ⟨completeRow env (updateTableRow env td t0), hfind, ?_, rfl, rfl, rfl, rfl⟩
  simp [completeRow, updateTableRow, hty, hfmt, hloc, hown, hrc, hsb]

/-- Fully-specified rediscovery record for `c.s.b`, used as C8's witness. -/
def tdB2W : TableData :=
  { tdBW with table_type := some "VIEW", data_source_format := some "DELTA2",
              storage_location := some "newloc", owner := some "newown",
              row_count := some 55, size_bytes := some 66 }

/-- Witness for C8 at the pre-populated store. -/
theorem C8_witness :
    ∃ t', (okStore (sync_table envW 1 tdB2W sPreW) s0W).tables.find?
        (fun t => t.full_table_name == tdB2W.full_name) = some t'
      ∧ t' = { tB0W with table_type := "VIEW", table_format := "DELTA2",
                         location := "newloc", owner := "newown",
                         row_count := 55, size_bytes := 66,
                         last_updated := envW.now,
                         analysis_status := "completed",
                         last_analyzed := some envW.now }
      ∧ t'.source_owners = tB0W.source_owners
      ∧ t'.is_active = tB0W.is_active
      ∧ t'.discovered_by = tB0W.discovered_by
      ∧ t'.discovered_at = tB0W.discovered_at :=
  C8_update_frame envW 1 tdB2W sPreW
    (okStore (sync_table envW 1 tdB2W sPreW) s0W)
    (okStats (sync_table envW 1 tdB2W sPreW)) tB0W
    (by rfl) (by rfl) "VIEW" "DELTA2" "newloc" "newown" 55 66
    rfl rfl rfl rfl rfl rfl

/-! ### C9 -/

/-- Counter bookkeeping of the per-table loop: every processed table adds
one to discovered-or-errors, and each discovered table is counted exactly
once as created or updated. -/
theorem syncTablesLoop_inv (env : Env) (u : Nat) :
    ∀ (tds : List TableData) (s : Store) (st : SweepStats),
      ((syncTablesLoop env u tds s st).2.tables_discovered
          + (syncTablesLoop env u tds s st).2.errors.length
        = st.tables_discovered + st.errors.length + tds.length)
      ∧ ((syncTablesLoop env u tds s st).2.tables_discovered
          + st.tables_created + st.tables_updated
        = (syncTablesLoop env u tds s st).2.tables_created
          + (syncTablesLoop env u tds s st).2.tables_updated
          + st.tables_discovered) := by
  intro tds
  induction tds with
  | nil =>
    intro s st
    simp only [syncTablesLoop, List.length_nil]
    omega
  | cons td rest ih =>
    intro s st
    simp only [syncTablesLoop]
    cases hsync : sync_table env u td s with
    | ok sr =>
      have h2 := ih sr.1 { st with
        tables_discovered := st.tables_discovered + 1
        tables_created := st.tables_created + (if sr.2.created then 1 else 0)
        tables_updated := st.tables_updated + (if sr.2.created then 0 else 1)
        columns_created := st.columns_created + sr.2.columns_created
        columns_updated := st.columns_updated + sr.2.columns_updated }
      dsimp only at h2 ⊢
      have hone : (if sr.2.created = true then 1 else 0)
          + (if sr.2.created = true then 0 else 1) = 1 := by
        cases sr.2.created <;> simp
      simp only [List.length_cons] at h2 ⊢
      omega
    | error e =>
      have h2 := ih s { st with errors :=
        st.errors ++ ["Failed to sync table " ++ td.full_name ++ ": " ++ e] }
      dsimp only at h2 ⊢
      simp only [List.length_append, List.length_cons, List.length_nil] at h2 ⊢
      omega

/-- C9: in every schema-walk report, `tables_discovered = tables_created +
tables_updated`, and every listed table contributes exactly once — to
`tables_discovered` when its sync succeeds, to `errors` when it fails. -/
theorem C9_schema_walk_counters (env : Env) (u : Nat)
    (catalog_name schema_name : String) (s : Store) (tds : List TableData)
    (htds : env.tablesOf catalog_name schema_name = .ok tds) :
    (discover_schema_tables env u catalog_name schema_name s).2.tables_discovered
      = (discover_schema_tables env u catalog_name schema_name s).2.tables_created
        + (discover_schema_tables env u catalog_name schema_name s).2.tables_updated
    ∧ (discover_schema_tables env u catalog_name schema_name s).2.tables_discovered
        + (discover_schema_tables env u catalog_name schema_name s).2.errors.length
      = tds.length := by
  simp only [discover_schema_tables, htds]
  have h2 := syncTablesLoop_inv env u tds s {}
  dsimp only at h2
  simp only [List.length_nil] at h2
  omega

/-- Witness for C9: the walk with one failing table (`c.s.b`) discovers and
classifies the two healthy tables and records one error. -/
theorem C9_witness :
    (discover_schema_tables envFW 1 "c" "s" s0W).2.tables_discovered
      = (discover_schema_tables envFW 1 "c" "s" s0W).2.tables_created
        + (discover_schema_tables envFW 1 "c" "s" s0W).2.tables_updated
    ∧ (discover_schema_tables envFW 1 "c" "s" s0W).2.tables_discovered
        + (discover_schema_tables envFW 1 "c" "s" s0W).2.errors.length
      = [tdAW, tdBW, tdCW].length :=
  C9_schema_walk_counters envFW 1 "c" "s" s0W [tdAW, tdBW, tdCW] (by rfl)

/-! ### C7 -/

/-- C7 counterexample: the dict returned by the search entry point does not
have the sweep report's shape — it lacks `catalogs_processed`,
`schemas_processed` and `tables_discovered` (it has `tables_found` /
`tables_synced` instead). -/
theorem C7_counterexample :
    searchReportKeys ≠ sweepReportKeys
      ∧ "catalogs_processed" ∉ searchReportKeys
      ∧ "schemas_processed" ∉ searchReportKeys
      ∧ "tables_discovered" ∉ searchReportKeys
      ∧ "tables_found" ∈ searchReportKeys
      ∧ "tables_found" ∉ sweepReportKeys := by
  decide

/-- The tables the catalog walk can reach, skipping scopes whose listing
fails — the reference enumeration the search loops are compared against. -/
def enumTables (env : Env) (cats : List String) : List TableData :=
  (cats.map (fun c =>
    match env.schemasOf c with
    | .error _ => []
    | .ok schemas =>
      (schemas.map (fun sch =>
        match env.tablesOf c sch with
        | .error _ => []
        | .ok tds => tds)).flatten)).flatten

theorem searchSchemasLoop_spec (env : Env) (termLower c : String) :
    ∀ (schemas : List String) (acc : List TableData),
      searchSchemasLoop env termLower c schemas acc
        = acc ++ ((schemas.map (fun sch =>
            match env.tablesOf c sch with
            | .error _ => []
            | .ok tds => tds)).flatten).filter (matchesSearch termLower) := by
  intro schemas
  induction schemas with
  | nil => intro acc; simp [searchSchemasLoop]
  | cons sch rest ih =>
    intro acc
    simp only [searchSchemasLoop, List.map_cons, List.flatten_cons]
    cases ht : env.tablesOf c sch with
    | error e =>
      dsimp only
      rw [ih acc]
      simp
    | ok tds =>
      dsimp only
      rw [ih (acc ++ tds.filter (matchesSearch termLower))]
      rw [List.filter_append, List.append_assoc]

theorem searchCatalogsLoop_spec (env : Env) (termLower : String) :
    ∀ (cats : List String) (acc : List TableData),
      searchCatalogsLoop env termLower cats acc
        = acc ++ (enumTables env cats).filter (matchesSearch termLower) := by
  intro cats
  induction cats with
  | nil => intro acc; simp [searchCatalogsLoop, enumTables]
  | cons c rest ih =>
    intro acc
    simp only [searchCatalogsLoop, enumTables, List.map_cons, List.flatten_cons]
    cases hs : env.schemasOf c with
    | error e =>
      dsimp only
      rw [ih acc]
      simp [enumTables]
    | ok schemas =>
      dsimp only
      rw [searchSchemasLoop_spec env termLower c schemas acc]
      rw [ih]
      rw [List.filter_append, List.append_assoc]
      simp [enumTables]

/-- C7 (amended): given a nonempty catalog list, the search entry point
reconciles exactly the enumerated tables whose name — or nonempty comment —
contains the term case-insensitively; but its report has the search shape
(`tables_found`/`tables_synced`, …), not the sweep report's shape. -/
theorem C7_search_matching_and_shape (env : Env) (u : Nat) (term : String)
    (cats : List String) (s : Store) (h : cats ≠ []) :
    search_tables env term cats
      = .ok ((enumTables env cats).filter (matchesSearch term.toLower))
    ∧ search_and_sync_tables env u term cats s
      = searchSyncLoop env u
          ((enumTables env cats).filter (matchesSearch term.toLower)) s
          { tables_found :=
              ((enumTables env cats).filter (matchesSearch term.toLower)).length }
    ∧ searchReportKeys ≠ sweepReportKeys := by
  have hne : cats.isEmpty = false := by
    cases cats with
    | nil => exact absurd rfl h
    | cons c cs => rfl
  have h1 : search_tables env term cats
      = .ok ((enumTables env cats).filter (matchesSearch term.toLower)) := by
    rw [search_tables]
    rw [hne]
    rw [if_neg Bool.false_ne_true]
    rw [searchCatalogsLoop_spec env term.toLower cats []]
    rfl
  refine ⟨h1, ?_, by decide⟩
  rw [search_and_sync_tables, h1]

/-- Witness for C7's amended statement: searching `cust` over catalog `c`
finds exactly the one table whose comment contains it. -/
theorem C7_witness :
    search_tables envW "CusT" ["c"]
      = .ok ((enumTables envW ["c"]).filter (matchesSearch "CusT".toLower))
    ∧ searchReportKeys ≠ sweepReportKeys :=
  have h := C7_search_matching_and_shape envW 1 "CusT" ["c"] s0W (by decide)
  ⟨h.1, h.2.2⟩

/-! ### C1 -/

/-- C1 counterexample: after the walk in which persisting column `y` of
`c.s.b` fails, the row of `c.s.b` is exactly its pre-sync value — its
`analysis_status` is still `completed`, **not** `failed` (the rolled-back
transaction undoes every write, including any status change), while the
walk still records exactly one error. -/
theorem C1_counterexample :
    ((discover_schema_tables envFW 1 "c" "s" sPreW).1.tables.find?
        (fun t => t.full_table_name == "c.s.b")) = some tB0W
      ∧ tB0W.analysis_status = "completed"
      ∧ tB0W.analysis_status ≠ "failed"
      ∧ (discover_schema_tables envFW 1 "c" "s" sPreW).2.errors
          = ["Failed to sync table c.s.b: boom"] := by
  decide

/-- C1 (amended): when table B's column persistence fails between sibling
syncs A and C, the walk returns the store produced by A's and C's syncs
alone — B's table row and column rows keep their pre-sync values (including
their pre-sync `analysis_status`, which is *not* set to `failed`), exactly
one error entry referencing B is recorded, and both siblings reach
`completed`. -/
theorem C1_rollback_isolation (env : Env) (u : Nat) (cat sch : String)
    (s : Store) (tdA tdB tdC : TableData) (s1 s2 : Store)
    (r1 r3 : TableSyncStats) (e : String)
    (hwf : s.WF)
    (htds : env.tablesOf cat sch = .ok [tdA, tdB, tdC])
    (h1 : sync_table env u tdA s = .ok (s1, r1))
    (h2 : sync_table env u tdB s1 = .error e)
    (h3 : sync_table env u tdC s1 = .ok (s2, r3))
    (hCB : tdC.full_name ≠ tdB.full_name)
    (hCA : tdC.full_name ≠ tdA.full_name) :
    (discover_schema_tables env u cat sch s).1 = s2
    ∧ (discover_schema_tables env u cat sch s).2.errors
        = ["Failed to sync table " ++ tdB.full_name ++ ": " ++ e]
    ∧ (discover_schema_tables env u cat sch s).2.tables_discovered = 2
    ∧ (∀ t ∈ s1.tables, t.full_table_name = tdB.full_name → t ∈ s2.tables)
    ∧ (∀ (c : SourceColumnRow) (t : SourceTableRow),
        c ∈ s1.columns → t ∈ s1.tables → c.table_id = t.tid →
        t.full_table_name = tdB.full_name → c ∈ s2.columns)
    ∧ (∃ tA ∈ s2.tables, tA.full_table_name = tdA.full_name
        ∧ tA.analysis_status = "completed")
    ∧ (∃ tC ∈ s2.tables, tC.full_table_name = tdC.full_name
        ∧ tC.analysis_status = "completed") := by
  have hwalk : discover_schema_tables env u cat sch s
      = syncTablesLoop env u [tdA, tdB, tdC] s {} := by
    simp [discover_schema_tables, htds]
  have hloop : syncTablesLoop env u [tdA, tdB, tdC] s {} = (s2,
      { tables_discovered := 2
        tables_created := (if r1.created then 1 else 0) + (if r3.created then 1 else 0)
        tables_updated := (if r1.created then 0 else 1) + (if r3.created then 0 else 1)
        columns_created := r1.columns_created + r3.columns_created
        columns_updated := r1.columns_updated + r3.columns_updated
        errors := ["Failed to sync table " ++ tdB.full_name ++ ": " ++ e] }) := by
    simp only [syncTablesLoop, h1, h2, h3]
    simp
  have hwf1 : s1.WF := sync_table_wf _ _ _ _ _ _ h1 hwf
  obtain ⟨-, hnodupTid1, -, htb1, -⟩ := hwf1
  refine ⟨?_, ?_, ?_, ?_, ?_, ?_, ?_⟩
  · rw [hwalk, hloop]
  · rw [hwalk, hloop]
  · rw [hwalk, hloop]
  · intro t ht hfull
    refine sync_table_frame_table _ _ _ _ _ _ h3 t ht ?_
    rw [hfull]
    exact fun hEq => hCB hEq.symm
  · intro c t hc ht hid hfull
    refine sync_table_frame_columns _ _ _ _ _ _ h3 c t hc ht hid ?_ hnodupTid1 htb1
    rw [hfull]
    exact fun hEq => hCB hEq.symm
  · rcases sync_table_completed _ _ _ _ _ _ h1 with ⟨tA, hA, hAfull, hAst, -⟩
    refine ⟨tA, ?_, hAfull, hAst⟩
    refine sync_table_frame_table _ _ _ _ _ _ h3 tA hA ?_
    rw [hAfull]
    exact fun hEq => hCA hEq.symm
  · rcases sync_table_completed _ _ _ _ _ _ h3 with ⟨tC, hC, hCfull, hCst, -⟩
    exact ⟨tC, hC, hCfull, hCst⟩

/-- Intermediate stores of the C1 walk over the failing environment. -/
def s1FW : Store := okStore (sync_table envFW 1 tdAW sPreW) s0W

def s2FW : Store := okStore (sync_table envFW 1 tdCW s1FW) s0W

/-- Witness for C1's amended statement at the concrete failing walk. -/
theorem C1_witness :
    (discover_schema_tables envFW 1 "c" "s" sPreW).2.errors
      = ["Failed to sync table " ++ tdBW.full_name ++ ": " ++ "boom"]
    ∧ (discover_schema_tables envFW 1 "c" "s" sPreW).2.tables_discovered = 2
    ∧ tB0W ∈ (discover_schema_tables envFW 1 "c" "s" sPreW).1.tables := by
  have h := C1_rollback_isolation envFW 1 "c" "s" sPreW tdAW tdBW tdCW
    s1FW s2FW (okStats (sync_table envFW 1 tdAW sPreW))
    (okStats (sync_table envFW 1 tdCW s1FW)) "boom"
    (by unfold Store.WF; decide) (by rfl) (by rfl) (by rfl) (by rfl)
    (by decide) (by decide)
  refine ⟨h.2.1, h.2.2.1, ?_⟩
  rw [h.1]
  exact h.2.2.2.1 tB0W (by decide) (by decide)

/-! ### C6

Spec-side error accounting, restating §7's propagation policy: every
scoped failure becomes exactly one report entry, computed from the
environment alone. -/

/-- All tables of the environment come with consistent fully-qualified
names (as `discover_tables` always builds them). -/
def EnvCons (env : Env) : Prop :=
  ∀ (c sch : String) (tds : List TableData),
    env.tablesOf c sch = .ok tds → ∀ td ∈ tds, tdFq td = td.full_name

/-- Modelled from the spec (§7, propagation policy): the single error entry
a failing table sync contributes. -/
def tableErrorsOf (env : Env) (td : TableData) : List String :=
  match syncErrorOf env td.full_name with
  | some e => ["Failed to sync table " ++ td.full_name ++ ": " ++ e]
  | none => []

/-- Modelled from the spec (§7): the error entries of one schema scope. -/
def schemaErrorsSpec (env : Env) (c sch : String) : List String :=
  match env.tablesOf c sch with
  | .error e => ["Failed to discover tables in " ++ c ++ "." ++ sch ++ ": " ++ e]
  | .ok tds => (tds.map (tableErrorsOf env)).flatten

/-- Modelled from the spec (§7): the error entries of one catalog scope. -/
def catalogErrorsSpec (env : Env) (c : String) : List String :=
  match env.schemasOf c with
  | .error e => ["Failed to discover schemas in catalog " ++ c ++ ": " ++ e]
  | .ok schemas => (schemas.map (schemaErrorsSpec env c)).flatten

/-- Modelled from the spec (§7): the full expected error list of a sweep,
including the degenerate zero-catalog case. -/
def sweepErrorsSpec (env : Env) (catalogs : List String) : List String :=
  match (if catalogs.isEmpty then env.catalogs else .ok catalogs) with
  | .error e => ["Failed to discover catalogs: " ++ e]
  | .ok cats => (cats.map (catalogErrorsSpec env)).flatten

/-- Modelled from the spec (§7): the full expected error list of a search
run. -/
def searchErrorsSpec (env : Env) (term : String) (catalogs : List String) :
    List String :=
  match search_tables env term catalogs with
  | .error e => ["Search and sync failed: " ++ e]
  | .ok matched => (matched.map (tableErrorsOf env)).flatten

theorem syncTablesLoop_errors (env : Env) (u : Nat) :
    ∀ (tds : List TableData) (s : Store) (st : SweepStats),
      Cons s → (∀ td ∈ tds, tdFq td = td.full_name) →
      (syncTablesLoop env u tds s st).2.errors
          = st.errors ++ (tds.map (tableErrorsOf env)).flatten
        ∧ Cons (syncTablesLoop env u tds s st).1 := by
  intro tds
  induction tds with
  | nil =>
    intro s st hcons _
    simp only [syncTablesLoop, List.map_nil]
    exact ⟨by simp, hcons⟩
  | cons td rest ih =>
    intro s st hcons hftds
    have htd := hftds td (List.mem_cons_self _ _)
    have hrest : ∀ td' ∈ rest, tdFq td' = td'.full_name :=
      fun td' h' => hftds td' (List.mem_cons_of_mem _ h')
    simp only [syncTablesLoop, List.map_cons, List.flatten_cons]
    have herr := sync_table_err env u td s hcons htd
    cases hsync : sync_table env u td s with
    | ok sr =>
      have hsome : syncErrorOf env td.full_name = none := by
        rw [← herr, hsync]; rfl
      have htde : tableErrorsOf env td = [] := by
        rw [tableErrorsOf, hsome]
      have hcons1 : Cons sr.1 := by
        have := sync_table_cons env u td s sr.1 sr.2 (by rw [hsync]) hcons htd
        exact this
      have h2 := ih sr.1 { st with
        tables_discovered := st.tables_discovered + 1
        tables_created := st.tables_created + (if sr.2.created then 1 else 0)
        tables_updated := st.tables_updated + (if sr.2.created then 0 else 1)
        columns_created := st.columns_created + sr.2.columns_created
        columns_updated := st.columns_updated + sr.2.columns_updated } hcons1 hrest
      refine ⟨?_, h2.2⟩
      rw [h2.1]
      dsimp only
      rw [htde]
      simp
    | error e =>
      have hsome : syncErrorOf env td.full_name = some e := by
        rw [← herr, hsync]; rfl
      have htde : tableErrorsOf env td
          = ["Failed to sync table " ++ td.full_name ++ ": " ++ e] := by
        rw [tableErrorsOf, hsome]
      have h2 := ih s { st with errors :=
        st.errors ++ ["Failed to sync table " ++ td.full_name ++ ": " ++ e] } hcons hrest
      refine ⟨?_, h2.2⟩
      rw [h2.1]
      dsimp only
      rw [htde]
      simp

theorem discover_schema_tables_errors (env : Env) (u : Nat) (c sch : String)
    (s : Store) (hcons : Cons s) (hec : EnvCons env) :
    (discover_schema_tables env u c sch s).2.errors = schemaErrorsSpec env c sch
      ∧ Cons (discover_schema_tables env u c sch s).1 := by
  rw [discover_schema_tables, schemaErrorsSpec]
  cases htab : env.tablesOf c sch with
  | error e => exact ⟨rfl, hcons⟩
  | ok tds =>
    have h2 := syncTablesLoop_errors env u tds s {} hcons (hec c sch tds htab)
    refine ⟨?_, h2.2⟩
    rw [h2.1]
    simp

theorem walkSchemasLoop_errors (env : Env) (u : Nat) (c : String)
    (hec : EnvCons env) :
    ∀ (schemas : List String) (s : Store) (st : SweepStats), Cons s →
      (walkSchemasLoop env u c schemas s st).2.errors
          = st.errors ++ (schemas.map (schemaErrorsSpec env c)).flatten
        ∧ Cons (walkSchemasLoop env u c schemas s st).1 := by
  intro schemas
  induction schemas with
  | nil =>
    intro s st hcons
    simp only [walkSchemasLoop, List.map_nil]
    exact ⟨by simp, hcons⟩
  | cons sch rest ih =>
    intro s st hcons
    simp only [walkSchemasLoop, List.map_cons, List.flatten_cons]
    have h1 := discover_schema_tables_errors env u c sch s hcons hec
    have h2 := ih (discover_schema_tables env u c sch s).1 { st with
      schemas_processed := st.schemas_processed + 1
      tables_discovered := st.tables_discovered
        + (discover_schema_tables env u c sch s).2.tables_discovered
      tables_created := st.tables_created
        + (discover_schema_tables env u c sch s).2.tables_created
      tables_updated := st.tables_updated
        + (discover_schema_tables env u c sch s).2.tables_updated
      columns_created := st.columns_created
        + (discover_schema_tables env u c sch s).2.columns_created
      columns_updated := st.columns_updated
        + (discover_schema_tables env u c sch s).2.columns_updated
      errors := st.errors ++ (discover_schema_tables env u c sch s).2.errors } h1.2
    refine ⟨?_, h2.2⟩
    rw [h2.1]
    dsimp only
    rw [h1.1]
    simp

theorem discover_catalog_tables_errors (env : Env) (u : Nat) (c : String)
    (s : Store) (hcons : Cons s) (hec : EnvCons env) :
    (discover_catalog_tables env u c s).2.errors = catalogErrorsSpec env c
      ∧ Cons (discover_catalog_tables env u c s).1 := by
  rw [discover_catalog_tables, catalogErrorsSpec]
  cases hsch : env.schemasOf c with
  | error e => exact ⟨rfl, hcons⟩
  | ok schemas =>
    have h2 := walkSchemasLoop_errors env u c hec schemas s {} hcons
    refine ⟨?_, h2.2⟩
    rw [h2.1]
    simp

theorem walkCatalogsLoop_errors (env : Env) (u : Nat) (hec : EnvCons env) :
    ∀ (cats : List String) (s : Store) (st : SweepStats), Cons s →
      (walkCatalogsLoop env u cats s st).2.errors
          = st.errors ++ (cats.map (catalogErrorsSpec env)).flatten
        ∧ Cons (walkCatalogsLoop env u cats s st).1 := by
  intro cats
  induction cats with
  | nil =>
    intro s st hcons
    simp only [walkCatalogsLoop, List.map_nil]
    exact ⟨by simp, hcons⟩
  | cons c rest ih =>
    intro s st hcons
    simp only [walkCatalogsLoop, List.map_cons, List.flatten_cons]
    have h1 := discover_catalog_tables_errors env u c s hcons hec
    have h2 := ih (discover_catalog_tables env u c s).1 { st with
      catalogs_processed := st.catalogs_processed + 1
      schemas_processed := st.schemas_processed
        + (discover_catalog_tables env u c s).2.schemas_processed
      tables_discovered := st.tables_discovered
        + (discover_catalog_tables env u c s).2.tables_discovered
      tables_created := st.tables_created
        + (discover_catalog_tables env u c s).2.tables_created
      tables_updated := st.tables_updated
        + (discover_catalog_tables env u c s).2.tables_updated
      columns_created := st.columns_created
        + (discover_catalog_tables env u c s).2.columns_created
      columns_updated := st.columns_updated
        + (discover_catalog_tables env u c s).2.columns_updated
      errors := st.errors ++ (discover_catalog_tables env u c s).2.errors } h1.2
    refine ⟨?_, h2.2⟩
    rw [h2.1]
    dsimp only
    rw [h1.1]
    simp

theorem searchSyncLoop_errors (env : Env) (u : Nat) :
    ∀ (tds : List TableData) (s : Store) (st : SearchStats),
      Cons s → (∀ td ∈ tds, tdFq td = td.full_name) →
      (searchSyncLoop env u tds s st).2.errors
          = st.errors ++ (tds.map (tableErrorsOf env)).flatten := by
  intro tds
  induction tds with
  | nil =>
    intro s st hcons _
    simp only [searchSyncLoop, List.map_nil]
    simp
  | cons td rest ih =>
    intro s st hcons hftds
    have htd := hftds td (List.mem_cons_self _ _)
    have hrest : ∀ td' ∈ rest, tdFq td' = td'.full_name :=
      fun td' h' => hftds td' (List.mem_cons_of_mem _ h')
    simp only [searchSyncLoop, List.map_cons, List.flatten_cons]
    have herr := sync_table_err env u td s hcons htd
    cases hsync : sync_table env u td s with
    | ok sr =>
      have hsome : syncErrorOf env td.full_name = none := by
        rw [← herr, hsync]; rfl
      have htde : tableErrorsOf env td = [] := by
        rw [tableErrorsOf, hsome]
      have hcons1 : Cons sr.1 := by
        have := sync_table_cons env u td s sr.1 sr.2 (by rw [hsync]) hcons htd
        exact this
      rw [ih sr.1 { st with
        tables_synced := st.tables_synced + 1
        tables_created := st.tables_created + (if sr.2.created then 1 else 0)
        tables_updated := st.tables_updated + (if sr.2.created then 0 else 1)
        columns_created := st.columns_created + sr.2.columns_created
        columns_updated := st.columns_updated + sr.2.columns_updated } hcons1 hrest]
      dsimp only
      rw [htde]
      simp
    | error e =>
      have hsome : syncErrorOf env td.full_name = some e := by
        rw [← herr, hsync]; rfl
      have htde : tableErrorsOf env td
          = ["Failed to sync table " ++ td.full_name ++ ": " ++ e] := by
        rw [tableErrorsOf, hsome]
      rw [ih s { st with errors :=
        st.errors ++ ["Failed to sync table " ++ td.full_name ++ ": " ++ e] } hcons hrest]
      dsimp only
      rw [htde]
      simp

/-- Every table the search can return has a consistent name. -/
theorem search_tables_cons (env : Env) (term : String) (cats : List String)
    (hec : EnvCons env) (l : List TableData)
    (hl : search_tables env term cats = .ok l) :
    ∀ td ∈ l, tdFq td = td.full_name := by
  have hmem : ∀ (cs : List String) (td : TableData),
      td ∈ enumTables env cs → tdFq td = td.full_name := by
    intro cs td hmem
    rw [enumTables] at hmem
    rcases List.mem_flatten.mp hmem with ⟨inner, hinner, htd⟩
    rcases List.mem_map.mp hinner with ⟨c, -, hEq⟩
    subst hEq
    cases hs : env.schemasOf c with
    | error e => rw [hs] at htd; cases htd
    | ok schemas =>
      rw [hs] at htd
      rcases List.mem_flatten.mp htd with ⟨inner2, hinner2, htd2⟩
      rcases List.mem_map.mp hinner2 with ⟨sch, -, hEq2⟩
      subst hEq2
      cases ht : env.tablesOf c sch with
      | error e => rw [ht] at htd2; cases htd2
      | ok tds =>
        rw [ht] at htd2
        exact hec c sch tds ht td htd2
  rw [search_tables] at hl
  by_cases hce : cats.isEmpty
  · rw [if_pos hce] at hl
    cases hc : env.catalogs with
    | error e => rw [hc] at hl; cases hl
    | ok cs =>
      rw [hc] at hl
      injection hl with hl
      subst hl
      intro td htd
      rw [searchCatalogsLoop_spec] at htd
      simp only [List.nil_append] at htd
      exact hmem cs td (List.mem_of_mem_filter htd)
  · rw [if_neg hce] at hl
    injection hl with hl
    subst hl
    intro td htd
    rw [searchCatalogsLoop_spec] at htd
    simp only [List.nil_append] at htd
    exact hmem cats td (List.mem_of_mem_filter htd)

/-- C6: neither entry point lets an exception propagate — each always
returns a report, and that report's error list is exactly the spec-side
list of scoped failures (one entry per failing scope), including the
degenerate case where no catalog can be listed at all, which yields a
report with that single error rather than an unhandled failure. -/
theorem C6_no_propagation (env : Env) (u : Nat) (catalogs : List String)
    (term : String) (s : Store) (hcons : Cons s) (hec : EnvCons env) :
    (discover_all_tables env u catalogs s).2.errors = sweepErrorsSpec env catalogs
      ∧ (search_and_sync_tables env u term catalogs s).2.errors
        = searchErrorsSpec env term catalogs := by
  constructor
  · rw [discover_all_tables, sweepErrorsSpec]
    by_cases hce : catalogs.isEmpty
    · rw [if_pos hce, if_pos hce]
      cases hc : env.catalogs with
      | error e => rfl
      | ok cats =>
        have h2 := walkCatalogsLoop_errors env u hec cats s {} hcons
        rw [h2.1]
        simp
    · rw [if_neg hce, if_neg hce]
      have h2 := walkCatalogsLoop_errors env u hec catalogs s {} hcons
      rw [h2.1]
      simp
  · rw [search_and_sync_tables, searchErrorsSpec]
    cases hst : search_tables env term catalogs with
    | error e => rfl
    | ok matched =>
      have hm := search_tables_cons env term catalogs hec matched hst
      rw [searchSyncLoop_errors env u matched s _ hcons hm]
      simp

/-- Witness for C6 over the failing environment: both entry points return
reports whose error lists match the spec-side accounting. -/
theorem C6_witness :
    (discover_all_tables envFW 1 [] s0W).2.errors = sweepErrorsSpec envFW []
      ∧ (search_and_sync_tables envFW 1 "" [] s0W).2.errors
        = searchErrorsSpec envFW "" [] :=
  C6_no_propagation envFW 1 [] "" s0W
    (by intro t ht; cases ht)
    (by
      intro c sch tds hh
      have hEq : tds = [tdAW, tdBW, tdCW] := by
        have h2 : (Except.ok [tdAW, tdBW, tdCW] : Except String (List TableData))
            = .ok tds := hh
        injection h2 with h2
        exact h2.symm
      subst hEq
      intro td htd
      simp only [List.mem_cons, List.not_mem_nil, or_false] at htd
      rcases htd with h | h | h <;> subst h <;> decide)

/-! ### C4 -/

/-- First-sweep step: under a healthy environment a sync succeeds,
preserves well-formedness and consistency, establishes presence of the
synced table and all its discovered columns, and never loses presence. -/
theorem sync_table_first_step (env : Env) (u : Nat) (td : TableData) (s : Store)
    (hwf : s.WF) (hcons : Cons s) (htd : tdFq td = td.full_name)
    (hsave : ∀ fq n, env.columnSaveError fq n = none)
    (hraw : ∀ fq, errOf (env.rawColumnsOf fq) = none) :
    ∃ s' r, sync_table env u td s = .ok (s', r)
      ∧ s'.WF ∧ Cons s'
      ∧ hasTable s' td.full_name = true
      ∧ (∀ cd ∈ tdCols env td.full_name,
          hasColByName s' td.full_name cd.name = true)
      ∧ (∀ fqn, hasTable s fqn = true → hasTable s' fqn = true)
      ∧ (∀ fqn n, hasColByName s fqn n = true → hasColByName s' fqn n = true) := by
  rcases sync_table_ok_of_envok env u td s hcons htd hsave hraw with ⟨p, hp⟩
  obtain ⟨s', r⟩ := p
  refine ⟨s', r, hp, sync_table_wf _ _ _ _ _ _ hp hwf,
    sync_table_cons _ _ _ _ _ _ hp hcons htd,
    sync_table_hasTable _ _ _ _ _ _ hp,
    sync_table_synced_cols _ _ _ _ _ _ hp hcons htd,
    fun fqn h => sync_table_hasTable_mono _ _ _ _ _ _ hp fqn h,
    fun fqn n h => sync_table_hasColByName_mono _ _ _ _ _ _ hp fqn n h⟩

/-- First sweep of the per-table loop: the final store is well-formed,
consistent, and contains every listed table with all its discovered
columns. -/
theorem syncTablesLoop_first (env : Env) (u : Nat)
    (hsave : ∀ fq n, env.columnSaveError fq n = none)
    (hraw : ∀ fq, errOf (env.rawColumnsOf fq) = none) :
    ∀ (tds : List TableData) (s : Store) (st : SweepStats),
      s.WF → Cons s → (∀ td ∈ tds, tdFq td = td.full_name) →
      (syncTablesLoop env u tds s st).1.WF
      ∧ Cons (syncTablesLoop env u tds s st).1
      ∧ (∀ td ∈ tds,
          hasTable (syncTablesLoop env u tds s st).1 td.full_name = true
          ∧ ∀ cd ∈ tdCols env td.full_name,
            hasColByName (syncTablesLoop env u tds s st).1 td.full_name cd.name = true)
      ∧ (∀ fqn, hasTable s fqn = true →
          hasTable (syncTablesLoop env u tds s st).1 fqn = true)
      ∧ (∀ fqn n, hasColByName s fqn n = true →
          hasColByName (syncTablesLoop env u tds s st).1 fqn n = true) := by
  intro tds
  induction tds with
  | nil =>
    intro s st hwf hcons _
    simp only [syncTablesLoop]
    exact ⟨hwf, hcons, fun td h => absurd h (List.not_mem_nil td),
      fun _ h => h, fun _ _ h => h⟩
  | cons td rest ih =>
    intro s st hwf hcons hftds
    have htd := hftds td (List.mem_cons_self _ _)
    have hrest : ∀ td' ∈ rest, tdFq td' = td'.full_name :=
      fun td' h' => hftds td' (List.mem_cons_of_mem _ h')
    rcases sync_table_first_step env u td s hwf hcons htd hsave hraw with
      ⟨s', r, hsync, hwf', hcons', hhas', hcols', hmonoT, hmonoC⟩
    simp only [syncTablesLoop, hsync]
    have h2 := ih s' { st with
      tables_discovered := st.tables_discovered + 1
      tables_created := st.tables_created + (if r.created then 1 else 0)
      tables_updated := st.tables_updated + (if r.created then 0 else 1)
      columns_created := st.columns_created + r.columns_created
      columns_updated := st.columns_updated + r.columns_updated } hwf' hcons' hrest
    refine ⟨h2.1, h2.2.1, ?_, ?_, ?_⟩
    · intro td' htd'
      rcases List.mem_cons.mp htd' with hEq | hmem
      · subst hEq
        exact ⟨h2.2.2.2.1 td'.full_name hhas',
          fun cd hcd => h2.2.2.2.2 td'.full_name cd.name (hcols' cd hcd)⟩
      · exact h2.2.2.1 td' hmem
    · intro fqn h
      exact h2.2.2.2.1 fqn (hmonoT fqn h)
    · intro fqn n h
      exact h2.2.2.2.2 fqn n (hmonoC fqn n h)

/-- Unfolding step of the per-table loop when a sync takes the plain
update path. -/
theorem syncTablesLoop_cons_ok_update (env : Env) (u : Nat) (td : TableData)
    (rest : List TableData) (s : Store) (st : SweepStats) (s1 : Store) (cu : Nat)
    (hsync : sync_table env u td s = .ok (s1,
      { created := false, columns_created := 0, columns_updated := cu })) :
    syncTablesLoop env u (td :: rest) s st = syncTablesLoop env u rest s1
      { st with
        tables_discovered := st.tables_discovered + 1
        tables_updated := st.tables_updated + 1
        columns_updated := st.columns_updated + cu } := by
  simp only [syncTablesLoop, hsync]
  simp

/-- Second sweep of the per-table loop: with every table and column already
present, the loop counts only updates and adds no rows. -/
theorem syncTablesLoop_second (env : Env) (u : Nat)
    (hsave : ∀ fq n, env.columnSaveError fq n = none)
    (hraw : ∀ fq, errOf (env.rawColumnsOf fq) = none) :
    ∀ (tds : List TableData) (s : Store) (st : SweepStats),
      s.WF → Cons s → (∀ td ∈ tds, tdFq td = td.full_name) →
      (∀ td ∈ tds, hasTable s td.full_name = true
        ∧ ∀ cd ∈ tdCols env td.full_name,
          hasColByName s td.full_name cd.name = true) →
      (syncTablesLoop env u tds s st).2.tables_created = st.tables_created
      ∧ (syncTablesLoop env u tds s st).2.columns_created = st.columns_created
      ∧ (syncTablesLoop env u tds s st).2.tables_updated
          = st.tables_updated + tds.length
      ∧ (syncTablesLoop env u tds s st).2.columns_updated
          = st.columns_updated
            + (tds.map (fun td => (tdCols env td.full_name).length)).sum
      ∧ (syncTablesLoop env u tds s st).2.tables_discovered
          = st.tables_discovered + tds.length
      ∧ (syncTablesLoop env u tds s st).1.tables.length = s.tables.length
      ∧ (syncTablesLoop env u tds s st).1.columns.length = s.columns.length := by
  intro tds
  induction tds with
  | nil =>
    intro s st hwf hcons _ _
    exact ⟨rfl, rfl, rfl, rfl, rfl, rfl, rfl⟩
  | cons td rest ih =>
    intro s st hwf hcons hftds hhas
    have htd := hftds td (List.mem_cons_self _ _)
    have hrest : ∀ td' ∈ rest, tdFq td' = td'.full_name :=
      fun td' h' => hftds td' (List.mem_cons_of_mem _ h')
    have hhead := hhas td (List.mem_cons_self _ _)
    rcases sync_table_second env u td s hcons htd hsave hraw hhead.1 hhead.2 with
      ⟨s1, hsync, hlenT, hlenC⟩
    have hwf1 : s1.WF := sync_table_wf _ _ _ _ _ _ hsync hwf
    have hcons1 : Cons s1 := sync_table_cons _ _ _ _ _ _ hsync hcons htd
    have hhas1 : ∀ td' ∈ rest, hasTable s1 td'.full_name = true
        ∧ ∀ cd ∈ tdCols env td'.full_name,
          hasColByName s1 td'.full_name cd.name = true := by
      intro td' h'
      have := hhas td' (List.mem_cons_of_mem _ h')
      exact ⟨sync_table_hasTable_mono _ _ _ _ _ _ hsync _ this.1,
        fun cd hcd => sync_table_hasColByName_mono _ _ _ _ _ _ hsync _ _
          (this.2 cd hcd)⟩
    rw [syncTablesLoop_cons_ok_update env u td rest s st s1
      (tdCols env td.full_name).length hsync]
    have h2 := ih s1 { st with
      tables_discovered := st.tables_discovered + 1
      tables_updated := st.tables_updated + 1
      columns_updated := st.columns_updated + (tdCols env td.full_name).length }
      hwf1 hcons1 hrest hhas1
    dsimp only at h2
    simp only [List.map_cons, List.sum_cons, List.length_cons]
    omega

/-- C4: a second sweep of the same schema over unchanged external metadata
is idempotent in the report counters — it creates nothing, counts every
table and every discovered column as updated, and adds no rows to the
store. -/
theorem C4_second_sweep_idempotent (env : Env) (u : Nat)
    (cat sch : String) (s : Store) (tds : List TableData)
    (hwf : s.WF) (hcons : Cons s)
    (hsave : ∀ fq n, env.columnSaveError fq n = none)
    (hraw : ∀ fq, errOf (env.rawColumnsOf fq) = none)
    (htds : env.tablesOf cat sch = .ok tds)
    (hftds : ∀ td ∈ tds, tdFq td = td.full_name) :
    (discover_schema_tables env u cat sch
        (discover_schema_tables env u cat sch s).1).2.tables_created = 0
    ∧ (discover_schema_tables env u cat sch
        (discover_schema_tables env u cat sch s).1).2.columns_created = 0
    ∧ (discover_schema_tables env u cat sch
        (discover_schema_tables env u cat sch s).1).2.tables_updated = tds.length
    ∧ (discover_schema_tables env u cat sch
        (discover_schema_tables env u cat sch s).1).2.columns_updated
      = (tds.map (fun td => (tdCols env td.full_name).length)).sum
    ∧ (discover_schema_tables env u cat sch
        (discover_schema_tables env u cat sch s).1).2.tables_discovered = tds.length
    ∧ (discover_schema_tables env u cat sch
        (discover_schema_tables env u cat sch s).1).1.tables.length
      = (discover_schema_tables env u cat sch s).1.tables.length
    ∧ (discover_schema_tables env u cat sch
        (discover_schema_tables env u cat sch s).1).1.columns.length
      = (discover_schema_tables env u cat sch s).1.columns.length := by
  have hfirst := syncTablesLoop_first env u hsave hraw tds s {} hwf hcons hftds
  have hR1 : discover_schema_tables env u cat sch s
      = syncTablesLoop env u tds s {} := by
    simp [discover_schema_tables, htds]
  rw [hR1]
  have hsecond := syncTablesLoop_second env u hsave hraw tds
    (syncTablesLoop env u tds s {}).1 {} hfirst.1 hfirst.2.1 hftds hfirst.2.2.1
  have hR2 : discover_schema_tables env u cat sch (syncTablesLoop env u tds s {}).1
      = syncTablesLoop env u tds (syncTablesLoop env u tds s {}).1 {} := by
    simp [discover_schema_tables, htds]
  rw [hR2]
  have hz : ({} : SweepStats).tables_created = 0 ∧ ({} : SweepStats).columns_created = 0
      ∧ ({} : SweepStats).tables_updated = 0 ∧ ({} : SweepStats).columns_updated = 0
      ∧ ({} : SweepStats).tables_discovered = 0 := ⟨rfl, rfl, rfl, rfl, rfl⟩
  omega

/-- Witness for C4 over the three-table environment starting from the
empty store. -/
theorem C4_witness :
    (discover_schema_tables envW 1 "c" "s"
        (discover_schema_tables envW 1 "c" "s" s0W).1).2.tables_created = 0
    ∧ (discover_schema_tables envW 1 "c" "s"
        (discover_schema_tables envW 1 "c" "s" s0W).1).2.columns_created = 0
    ∧ (discover_schema_tables envW 1 "c" "s"
        (discover_schema_tables envW 1 "c" "s" s0W).1).2.tables_updated
      = [tdAW, tdBW, tdCW].length
    ∧ (discover_schema_tables envW 1 "c" "s"
        (discover_schema_tables envW 1 "c" "s" s0W).1).2.columns_updated
      = ([tdAW, tdBW, tdCW].map
          (fun td => (tdCols envW td.full_name).length)).sum := by
  have h := C4_second_sweep_idempotent envW 1 "c" "s" s0W [tdAW, tdBW, tdCW]
    (by unfold Store.WF; decide) (by intro t ht; cases ht)
    (fun fq n => rfl)
    (by
      intro fq
      show errOf (if fq == "c.s.a" then _ else if fq == "c.s.b" then _ else _) = none
      split
      · rfl
      · split <;> rfl)
    (by rfl)
    (by
      intro td htd
      simp only [List.mem_cons, List.not_mem_nil, or_false] at htd
      rcases htd with h | h | h <;> subst h <;> decide)
  exact ⟨h.1, h.2.1, h.2.2.1, h.2.2.2.1⟩

end DiscoveryCore
